import Mathlib

/-!
Shallow embedding of the HTML guideline validator
(`skills/guideline/scripts`): the three validation rules
(`basic_structure.py`, `meta_tags.py`, `language_consistency.py`), the
orchestrator (`validate.py`), the JSON reporter (`json_reporter.py`) and
the HTML reporter's per-rule aggregation, snippet extraction and escaping
(`html_reporter.py`).

Conventions of the embedding:
* Python strings are Lean `String`s; `x in s` (substring) is `containsSub`,
  `str.lower` is `pyToLower`, `str.replace` is `pyReplace`.
* A parsed BeautifulSoup document is `HtmlDoc`: exactly the queries the
  rules perform (top-level non-element nodes stringified, the first
  `html` / `head` / `title` element, all `meta` elements in document
  order).  bs4 tags always carry a `sourceline` attribute (`None` when
  untracked), modelled as `Option Nat`, so `getattr(tag, 'sourceline', d)`
  is the field itself.
* Python dicts (insertion ordered) are association lists; `set()` of paths
  is an insertion-ordered duplicate-free list (`listAddSet`).
* A Python function that may raise returns `Except String` (the string is
  `str(e)`); reading a file from disk is modelled by passing the read's
  outcome in (`ReadOutcome`, `Option (List String)`).
-/

/-! ## Python string primitives -/

/-- Prefix test on character lists: does the first list begin the second? -/
def listHasPrefix : List Char → List Char → Bool
  | [], _ => true
  | _ :: _, [] => false
  | a :: as, b :: bs => a == b && listHasPrefix as bs

/-- Substring test on character lists (`pat` occurs somewhere in the list). -/
def listHasSub (pat : List Char) : List Char → Bool
  | [] => pat.isEmpty
  | c :: rest => listHasPrefix pat (c :: rest) || listHasSub pat rest

/-- Python `pat in s`: substring containment. -/
def containsSub (pat s : String) : Bool := listHasSub pat.data s.data

/-- Worker for `pyReplace`, structural on the fuel; fuel at least the length
of the scanned list makes it total on the input. -/
def replaceFuel (pat rep : List Char) : Nat → List Char → List Char
  | _, [] => []
  | 0, l => l
  | fuel + 1, c :: rest =>
    if !pat.isEmpty && listHasPrefix pat (c :: rest) then
      rep ++ replaceFuel pat rep fuel ((c :: rest).drop pat.length)
    else
      c :: replaceFuel pat rep fuel rest

/-- Python `s.replace(pat, rep)`: every occurrence, scanning left to right,
non-overlapping (the source never calls it with an empty pattern). -/
def pyReplace (s pat rep : String) : String :=
  ⟨replaceFuel pat.data rep.data s.data.length s.data⟩

/-- Python `s.lower()` (character by character; the strings the validator
lowers are ASCII). -/
def pyToLower (s : String) : String := ⟨s.data.map Char.toLower⟩

/-- Python `s.upper()` (character by character). -/
def pyToUpper (s : String) : String := ⟨s.data.map Char.toUpper⟩

/-- Python `s.strip()`: leading and trailing whitespace removed. -/
def pyStrip (s : String) : String :=
  ⟨((s.data.dropWhile Char.isWhitespace).reverse.dropWhile
      Char.isWhitespace).reverse⟩

/-- Python `str(x)` of an optional-string attribute value (`None` prints as
the four letters). -/
def optStr (o : Option String) : String :=
  match o with
  | none => "None"
  | some s => s

/-! ## Data model -/

/-- One reported defect, the dict every rule builds:
`{"rule": …, "severity": …, "message": …, "line": …}`. -/
structure Issue where
  rule : String
  severity : String
  message : String
  line : Option Nat
deriving DecidableEq

/-- The root `<html>` element as the rules query it: the `class` attribute
(bs4 splits it into a token list; `None` when absent), the `lang` attribute
and the element's source line. -/
structure RootTag where
  classAttr : Option (List String)
  lang : Option String
  sourceline : Option Nat
deriving DecidableEq

/-- The `<head>` element: only its source line is consumed. -/
structure HeadTag where
  sourceline : Option Nat
deriving DecidableEq

/-- One `<meta>` element: the four attributes the rules inspect plus the
source line (each `None` when the attribute is absent). -/
structure MetaTag where
  charset : Option String
  httpEquiv : Option String
  nameAttr : Option String
  content : Option String
  sourceline : Option Nat
deriving DecidableEq

/-- The `<title>` element: `tag.string` (`None` when the title has no single
string child). -/
structure TitleTag where
  strVal : Option String
deriving DecidableEq

/-- A parsed document, restricted to the queries the rules perform.
`decls` are the stringified top-level nodes whose `name` is `None`
(doctype, comments, bare text), in document order; `metas` are all `meta`
elements in document order; the `Option` fields are `soup.find(tag)`. -/
structure HtmlDoc where
  decls : List String
  htmlTag : Option RootTag
  headTag : Option HeadTag
  metas : List MetaTag
  titleTag : Option TitleTag
deriving DecidableEq

/-- Helper for building an issue dict. -/
def mkIssue (rule severity message : String) (line : Option Nat) : Issue :=
  ⟨rule, severity, message, line⟩

/-! ## Rule `basic-structure` (`rules/basic_structure.py`) -/

/-- The joined class string: `' '.join(html_tag.get('class', []))`. -/
def classString (t : RootTag) : String :=
  " ".intercalate (t.classAttr.getD [])

/-- The doctype scan of `validate_basic_structure`: some top-level
non-element node whose string form contains `html` case-insensitively. -/
def doctypeFound (soup : HtmlDoc) : Bool :=
  soup.decls.any (fun s => containsSub "html" (pyToLower s))

/-- Rule `basic-structure`: DOCTYPE declaration, `<html>` tag, its `class`
(`no-js` plus a language code as substrings) and `lang` attributes.  The
source accumulates into one `issues` list; every check appends a block
that does not depend on the accumulator, so the body is the concatenation
of the per-check blocks in source order. -/
def validate_basic_structure (soup : HtmlDoc) (_file_path : String)
    (_raw_lines : List String) : List Issue :=
  (if doctypeFound soup then [] else
    [mkIssue "basic-structure" "error"
      "Missing DOCTYPE html declaration" none]) ++
  match soup.htmlTag with
  | none =>
      [mkIssue "basic-structure" "error" "Missing <html> tag" none]
  | some html_tag =>
    let html_line := html_tag.sourceline
    let html_class := classString html_tag
    (if html_class == "" then
      [mkIssue "basic-structure" "error"
        "HTML tag missing class attribute" html_line]
    else
      (if containsSub "no-js" html_class then [] else
        [mkIssue "basic-structure" "error"
          "HTML class should contain 'no-js'" html_line]) ++
      (if ["tc", "en", "sc"].any (fun l => containsSub l html_class) then []
       else
        [mkIssue "basic-structure" "error"
          "HTML class should contain language code (tc/en/sc)" html_line])) ++
    match html_tag.lang with
    | none =>
        [mkIssue "basic-structure" "error"
          "HTML tag missing lang attribute" html_line]
    | some lang_attr =>
        if lang_attr == "" then
          [mkIssue "basic-structure" "error"
            "HTML tag missing lang attribute" html_line]
        else if lang_attr == "zh-hant" || lang_attr == "en"
            || lang_attr == "zh-hans" then
          []
        else
          [mkIssue "basic-structure" "error"
            ("Invalid lang attribute '" ++ lang_attr ++
              "'. Expected: zh-hant, en, or zh-hans") html_line]

/-! ## Rule `required-meta-tags` (`rules/meta_tags.py`) -/

/-- bs4 matcher `attrs={'http-equiv': lambda x: x and x.lower() == v}`:
the attribute is present, non-empty and case-folds to `v`. -/
def httpEquivIs (v : String) (m : MetaTag) : Bool :=
  match m.httpEquiv with
  | none => false
  | some x => !(x == "") && pyToLower x == v

/-- Python truthiness of `tag.string` followed by `.strip()`:
`not tag or not tag.string or not tag.string.strip()` negated. -/
def titleNonEmpty (t? : Option TitleTag) : Bool :=
  match t? with
  | none => false
  | some t =>
      match t.strVal with
      | none => false
      | some s => !(s == "") && !(pyStrip s == "")

/-- Rule `required-meta-tags`: charset, x-ua-compatible, viewport, the three
cache-control directives and the four content descriptors.  As in
`validate_basic_structure`, every check appends a block independent of the
accumulator, so the body is the concatenation of the blocks in source
order. -/
def validate_meta_tags (soup : HtmlDoc) (_file_path : String)
    (_raw_lines : List String) : List Issue :=
  match soup.headTag with
  | none =>
      [mkIssue "required-meta-tags" "error" "Missing <head> tag" none]
  | some head =>
    let head_line := head.sourceline
    (match soup.metas.find? (fun m => m.charset.isSome) with
     | none =>
        [mkIssue "required-meta-tags" "error"
          "Missing required meta tag: charset" head_line]
     | some charset_meta =>
        if pyToLower (charset_meta.charset.getD "") == "utf-8" then [] else
          [mkIssue "required-meta-tags" "error"
            ("Charset should be 'utf-8', found '" ++
              optStr charset_meta.charset ++ "'") charset_meta.sourceline]) ++
    (match soup.metas.find? (httpEquivIs "x-ua-compatible") with
     | none =>
        [mkIssue "required-meta-tags" "error"
          "Missing required meta tag: http-equiv='x-ua-compatible'" head_line]
     | some ua_meta =>
        if containsSub "ie=edge" (pyToLower (ua_meta.content.getD "")) then []
        else
          [mkIssue "required-meta-tags" "warning"
            "x-ua-compatible content should contain 'ie=edge'"
            ua_meta.sourceline]) ++
    (match soup.metas.find? (fun m => m.nameAttr == some "viewport") with
     | none =>
        [mkIssue "required-meta-tags" "error"
          "Missing required meta tag: viewport" head_line]
     | some viewport_meta =>
        if containsSub "width=device-width"
            (pyToLower (viewport_meta.content.getD "")) then []
        else
          [mkIssue "required-meta-tags" "warning"
            "Viewport content should contain 'width=device-width'"
            viewport_meta.sourceline]) ++
    (if (soup.metas.find? (httpEquivIs "cache-control")).isSome then []
     else
      [mkIssue "required-meta-tags" "error"
        "Missing cache control meta tag: Cache-Control" head_line]) ++
    (if (soup.metas.find? (httpEquivIs "pragma")).isSome then [] else
      [mkIssue "required-meta-tags" "error"
        "Missing cache control meta tag: Pragma" head_line]) ++
    (if (soup.metas.find? (httpEquivIs "expires")).isSome then [] else
      [mkIssue "required-meta-tags" "error"
        "Missing cache control meta tag: Expires" head_line]) ++
    (if titleNonEmpty soup.titleTag then [] else
      [mkIssue "required-meta-tags" "error"
        "Missing or empty <title> tag" head_line]) ++
    (["keywords", "description", "summary"].flatMap
      (fun tag_name =>
        if (soup.metas.find? (fun m => m.nameAttr == some tag_name)).isSome
        then []
        else
          [mkIssue "required-meta-tags" "error"
            ("Missing required meta tag: " ++ tag_name) head_line]))

/-! ## Rule `language-consistency` (`rules/language_consistency.py`) -/

/-- Directory name cited in the rule's messages:
`code.replace('tc','chi').replace('en','eng').replace('sc','schi')`. -/
def localeDirName (code : String) : String :=
  pyReplace (pyReplace (pyReplace code "tc" "chi") "en" "eng") "sc" "schi"

/-- Rule `language-consistency`: the path's locale segment (`/chi/`,
`/eng/`, `/schi/`) must agree with the root element's class token and
`lang` attribute. -/
def validate_language_consistency (soup : HtmlDoc) (file_path : String)
    (_raw_lines : List String) : List Issue :=
  let path_lower := pyReplace (pyToLower file_path) "\\" "/"
  let expected : Option (String × String) :=
    if containsSub "/chi/" path_lower then some ("tc", "zh-hant")
    else if containsSub "/eng/" path_lower then some ("en", "en")
    else if containsSub "/schi/" path_lower then some ("sc", "zh-hans")
    else none
  match expected with
  | none => []
  | some (expected_lang_code, expected_lang_attr) =>
    match soup.htmlTag with
    | none => []
    | some html_tag =>
      let html_line := html_tag.sourceline
      let html_class := classString html_tag
      (if containsSub expected_lang_code html_class then []
       else
        [mkIssue "language-consistency" "error"
          ("HTML class should contain '" ++ expected_lang_code ++
            "' for files in " ++ localeDirName expected_lang_code ++
            "/ directory") html_line]) ++
      (if html_tag.lang == some expected_lang_attr then []
       else
        [mkIssue "language-consistency" "error"
          ("HTML lang attribute should be '" ++ expected_lang_attr ++
            "' for files in " ++ localeDirName expected_lang_code ++
            "/ directory, found '" ++ optStr html_tag.lang ++ "'")
          html_line])

/-! ## Rule registry (`rules/__init__.py`) -/

/-- A registered rule body.  Python functions may raise; `Except String`
carries `str(e)` of an escaping exception.  The three shipped rules are
total and always return `Except.ok`. -/
def RuleFn : Type :=
  HtmlDoc → String → List String → Except String (List Issue)

/-- `get_all_rules()`: the registry in registration order, as populated
at module-load time by the `@validator_rule` decorators. -/
def get_all_rules : List (String × String × RuleFn) :=
  [("basic-structure", "Check DOCTYPE and html tag",
      fun soup p raw => .ok (validate_basic_structure soup p raw)),
   ("required-meta-tags", "Check required meta tags",
      fun soup p raw => .ok (validate_meta_tags soup p raw)),
   ("language-consistency", "Check language consistency with file path",
      fun soup p raw => .ok (validate_language_consistency soup p raw))]

/-! ## Orchestrator (`validate.py`) -/

/-- Outcome of `open(file_path).read()` plus `BeautifulSoup(...)`:
either the raw lines and the parsed document, or the exception the
`try` block catches before any rule runs. -/
inductive ReadOutcome where
  | ok (raw_lines : List String) (soup : HtmlDoc)
  | fileNotFound
  | decodeError (msg : String)
  | parseError (msg : String)

/-- The per-file result dict of `validate_file`. -/
structure FileResult where
  path : String
  status : String
  issues : List Issue
  error : Option String
deriving DecidableEq

/-- The rule loop of `validate_file`: extend the issue list rule by rule;
an exception escaping a rule aborts the loop and carries the issues
accumulated so far out to the `except` clause. -/
def runRules (rules : List (String × String × RuleFn)) (soup : HtmlDoc)
    (path : String) (raw : List String) (acc : List Issue) :
    List Issue × Option String :=
  match rules with
  | [] => (acc, none)
  | (_, _, f) :: rest =>
    match f soup path raw with
    | .ok issues => runRules rest soup path raw (acc ++ issues)
    | .error e => (acc, some e)

/-- `validate_file`: run every registered rule, classify the outcome.
Read/parse exceptions become `status="error"`; an exception raised by a
rule body is caught by the same blanket `except Exception` clause, so it
also becomes `status="error"` with a `Parsing error:` detail and with the
issues gathered before the raise still in the result. -/
def validate_file (rules : List (String × String × RuleFn))
    (file_path : String) (outcome : ReadOutcome) : FileResult :=
  match outcome with
  | .fileNotFound =>
      ⟨file_path, "error", [], some ("File not found: " ++ file_path)⟩
  | .decodeError m =>
      ⟨file_path, "error", [], some ("Encoding error: " ++ m)⟩
  | .parseError m =>
      ⟨file_path, "error", [], some ("Parsing error: " ++ m)⟩
  | .ok raw_lines soup =>
    match runRules rules soup file_path raw_lines [] with
    | (issues, none) =>
        ⟨file_path, if issues.isEmpty then "passed" else "failed",
          issues, none⟩
    | (issues, some e) =>
        ⟨file_path, "error", issues, some ("Parsing error: " ++ e)⟩

/-- `validate_files`: one result per path, in input order. -/
def validate_files (rules : List (String × String × RuleFn))
    (inputs : List (String × ReadOutcome)) : List FileResult :=
  inputs.map (fun i => validate_file rules i.1 i.2)

/-! ## JSON reporter (`reporters/json_reporter.py`) -/

/-- One entry of the structured output's `files` list. -/
structure JsonFileEntry where
  path : String
  status : String
  error : Option String
  issues : Option (List Issue)
deriving DecidableEq

/-- The structured output: the `summary` object and the `files` list. -/
structure JsonOutput where
  total_files : Nat
  passed : Nat
  failed : Nat
  total_errors : Nat
  total_warnings : Nat
  files : List JsonFileEntry
deriving DecidableEq

/-- The `files` entry built for one failed/error result. -/
def jsonFileEntry (r : FileResult) : JsonFileEntry :=
  if r.status == "error" then
    ⟨r.path, r.status, some (r.error.getD "Unknown error"), none⟩
  else
    ⟨r.path, r.status, none, some r.issues⟩

/-- The loop body of `format_json_output`: failed/error results append a
file entry and accumulate the error/warning counts of their issues. -/
def jsonStep (acc : List JsonFileEntry × Nat × Nat) (r : FileResult) :
    List JsonFileEntry × Nat × Nat :=
  if r.status == "failed" || r.status == "error" then
    (acc.1 ++ [jsonFileEntry r],
     acc.2.1 + (r.issues.filter (fun i => i.severity == "error")).length,
     acc.2.2 + (r.issues.filter (fun i => i.severity == "warning")).length)
  else acc

/-- `format_json_output`: summary counts plus the failed/error files only,
in input order (the serialisation to a JSON string is not modelled). -/
def format_json_output (results : List FileResult) : JsonOutput :=
  let total_files := results.length
  let passed := (results.filter (fun r => r.status == "passed")).length
  let failed := total_files - passed
  let folded := results.foldl jsonStep ([], 0, 0)
  ⟨total_files, passed, failed, folded.2.1, folded.2.2, folded.1⟩

/-! ## Aggregation (`reporters/html_reporter.py`, `group_issues_by_rule`) -/

/-- The per-rule aggregate dict. -/
structure RuleAggregate where
  description : String
  total_files : Nat
  passed_files : Nat
  failed_files : Nat
  failures : List (String × List Issue)
deriving DecidableEq

/-- Python dict lookup on an insertion-ordered association list. -/
def alistGet? {α : Type} : List (String × α) → String → Option α
  | [], _ => none
  | (k, v) :: rest, k' => if k = k' then some v else alistGet? rest k'

/-- Python dict assignment: replace in place, else append at the end. -/
def alistSet {α : Type} : List (String × α) → String → α → List (String × α)
  | [], k, v => [(k, v)]
  | (k', v') :: rest, k, v =>
      if k' = k then (k', v) :: rest else (k', v') :: alistSet rest k v

/-- Python in-place mutation of the value stored under an existing key. -/
def alistModify {α : Type} : List (String × α) → String → (α → α) →
    List (String × α)
  | [], _, _ => []
  | (k', v) :: rest, k, f =>
      if k' = k then (k', f v) :: rest else (k', v) :: alistModify rest k f

/-- Python `set.add` on an insertion-ordered duplicate-free list. -/
def listAddSet (s : List String) (x : String) : List String :=
  if x ∈ s then s else s ++ [x]

/-- The inner grouping of one file's issues:
`file_issues_by_rule.setdefault(rule, []).append(issue)` in issue order. -/
def alistAppendIssue (m : List (String × List Issue)) (k : String)
    (i : Issue) : List (String × List Issue) :=
  match alistGet? m k with
  | some _ => alistModify m k (fun l => l ++ [i])
  | none => m ++ [(k, [i])]

/-- `file_issues_by_rule` for one result: its issues grouped by rule id,
first-seen rule order, issue order kept within a rule. -/
def fileIssuesByRule (issues : List Issue) : List (String × List Issue) :=
  issues.foldl (fun m i => alistAppendIssue m i.rule i) []

/-- State of the grouping loop: the `grouped` dict and `files_by_rule`. -/
def GroupState : Type :=
  List (String × RuleAggregate) × List (String × List String)

/-- The body of `for rule_id, rule_issues in file_issues_by_rule.items()`:
guarded by `if rule_id in grouped`, append the failure entry and record the
path in the rule's failed set. -/
def processFileEntries (path : String)
    (entries : List (String × List Issue)) (st : GroupState) : GroupState :=
  entries.foldl
    (fun st2 e =>
      if (alistGet? st2.1 e.1).isSome then
        (alistModify st2.1 e.1
            (fun agg => { agg with failures := agg.failures ++ [(path, e.2)] }),
         alistModify st2.2 e.1 (fun s => listAddSet s path))
      else st2)
    st

/-- The body of `for result in results`: only failed results contribute. -/
def groupStep (st : GroupState) (result : FileResult) : GroupState :=
  if result.status == "failed" then
    processFileEntries result.path (fileIssuesByRule result.issues) st
  else st

/-- The initialisation loop `for rule_id, description, _ in all_rules`:
one aggregate per registered rule with `total_files = len(results)`. -/
def initGrouped (n : Nat) (all_rules : List (String × String × RuleFn)) :
    List (String × RuleAggregate) :=
  all_rules.foldl (fun g r => alistSet g r.1 ⟨r.2.1, n, 0, 0, []⟩) []

/-- The dict comprehension `{rule_id: set() for rule_id, _, _ in all_rules}`. -/
def initFilesByRule (all_rules : List (String × String × RuleFn)) :
    List (String × List String) :=
  all_rules.foldl (fun m r => alistSet m r.1 ([] : List String)) []

/-- `group_issues_by_rule`: initialise one aggregate per registered rule,
transpose the file-major results into rule-major failures, then derive the
pass/fail counts from the deduplicated failed-path sets. -/
def group_issues_by_rule (results : List FileResult)
    (all_rules : List (String × String × RuleFn)) :
    List (String × RuleAggregate) :=
  let st := results.foldl groupStep
    (initGrouped results.length all_rules, initFilesByRule all_rules)
  st.1.map (fun e =>
    let failed := ((alistGet? st.2 e.1).getD []).length
    (e.1, { e.2 with
      failed_files := failed,
      passed_files := e.2.total_files - failed }))

/-- The failures a rule collects, read directly off the result list: one
`(path, issues-for-this-rule)` entry per failed result with at least one
issue for the rule, in input order. -/
def directFailures (results : List FileResult) (k : String) :
    List (String × List Issue) :=
  (results.filter
    (fun r => r.status == "failed" && r.issues.any (fun i => i.rule == k))).map
      (fun r => (r.path, r.issues.filter (fun i => i.rule == k)))

/-- The set of paths that failed a rule, as the loop accumulates it:
insertion-ordered, duplicate-free. -/
def ruleFailedPathsFrom (results : List FileResult) (k : String)
    (s : List String) : List String :=
  results.foldl
    (fun s r =>
      if r.status == "failed" && r.issues.any (fun i => i.rule == k) then
        listAddSet s r.path
      else s) s

/-- The deduplicated set of failed paths for one rule. -/
def ruleFailedPaths (results : List FileResult) (k : String) : List String :=
  ruleFailedPathsFrom results k []

/-! ## Snippet extraction (`html_reporter.py`, `extract_code_snippet`) -/

/-- Python `line.rstrip('\n')`: drop every trailing newline character. -/
def rstripNewline (s : String) : String :=
  ⟨(s.data.reverse.dropWhile (fun c => c == '\n')).reverse⟩

/-- `extract_code_snippet`: the read's outcome is passed in (`none` models
the caught `FileNotFoundError` / `UnicodeDecodeError` / `IOError`, which
degrade to an empty snippet).  The window is clipped to the file bounds:
`start_line = max(1, line_num - context)`,
`end_line = min(total_lines, line_num + context)`, lines `start..end`
1-indexed with trailing newlines stripped. -/
def extract_code_snippet (file_lines : Option (List String))
    (line_num : Nat) (context : Nat) : List (Nat × String) :=
  match file_lines with
  | none => []
  | some lines =>
    let total_lines := lines.length
    let start_line := max 1 (line_num - context)
    let end_line := min total_lines (line_num + context)
    (List.range' (start_line - 1) (end_line - (start_line - 1))).map
      (fun i => (i + 1, rstripNewline ((lines.get? i).getD "")))

/-! ## HTML escaping and rendering (`html_reporter.py`) -/

/-- One character of Python `html.escape(s)` (`quote=True`). -/
def escapeChar (c : Char) : String :=
  if c == '&' then "&amp;"
  else if c == '<' then "&lt;"
  else if c == '>' then "&gt;"
  else if c == '"' then "&quot;"
  else if c == Char.ofNat 39 then "&#x27;"
  else String.singleton c

/-- Worker for `htmlEscape`: concatenate the per-character replacements. -/
def escapeList : List Char → List Char
  | [] => []
  | c :: rest => (escapeChar c).data ++ escapeList rest

/-- Python `html.escape(s)` (stdlib, modelled character by character; the
stdlib's ordered replacements never rescan replacement text, so the two
agree). -/
def htmlEscape (s : String) : String :=
  ⟨escapeList s.data⟩

/-- `format_code_snippet_html`: each snippet line escaped and wrapped, the
failing line highlighted with a severity marker. -/
def format_code_snippet_html (snippet : List (Nat × String))
    (error_line : Nat) (severity : String) : String :=
  if snippet.isEmpty then "" else
    let marker := if severity == "error" then "❌" else "⚠"
    let lines_html := snippet.map (fun p =>
      let line_num := p.1
      let escaped_content := htmlEscape p.2
      if line_num = error_line then
        "<div class=\"error-line " ++ severity ++ "-line\">" ++
        "<span class=\"line-marker\">" ++ marker ++ "</span>" ++
        "<span class=\"line-number\">" ++ toString line_num ++ "</span>" ++
        "<span class=\"line-content\">" ++ escaped_content ++ "</span>" ++
        "</div>"
      else
        "<div class=\"code-line\">" ++
        "<span class=\"line-number\">" ++ toString line_num ++ "</span>" ++
        "<span class=\"line-content\">" ++ escaped_content ++ "</span>" ++
        "</div>")
    "\n".intercalate lines_html

/-- Sort key of `_generate_html_rules`: `(failed_files == 0, rule_id)` with
`False < True` and string order, as Python's stable `sorted`. -/
def ruleSortLE (a b : String × RuleAggregate) : Bool :=
  let ka := a.2.failed_files == 0
  let kb := b.2.failed_files == 0
  (!ka && kb) || (ka == kb && (a.1 < b.1 || a.1 == b.1))

/-- Insert behind every element that compares `le` to the new one: the
step of a stable insertion sort. -/
def insertLe {α : Type} (le : α → α → Bool) (x : α) : List α → List α
  | [] => [x]
  | y :: ys => if le y x then y :: insertLe le x ys else x :: y :: ys

/-- Python's `sorted` with a key: a stable sort by the total order `le`
(insertion formulation; agrees with Python's stable mergesort). -/
def pySorted {α : Type} (le : α → α → Bool) (l : List α) : List α :=
  l.foldl (fun acc x => insertLe le x acc) []

/-- The HTML for one issue block inside a failure, snippet included when a
line number is known (`fs` models re-reading the source file from disk). -/
def issueBlockHtml (fs : String → Option (List String))
    (file_path : String) (issue : Issue) : String :=
  let severity := issue.severity
  let message := issue.message
  let severity_class := if severity == "error" then "error" else "warning"
  let severity_label := pyToUpper severity
  let header :=
    "\n                    <div class=\"issue-block " ++ severity_class ++
    "\">\n                        <div class=\"issue-header\">\n" ++
    "                            <span class=\"issue-severity\">" ++
    severity_label ++ "</span>\n" ++
    "                            <span class=\"issue-message\">" ++
    htmlEscape message ++ "</span>\n                            " ++
    (match issue.line with
     | some line =>
         if line = 0 then "" else
           "<span class=\"issue-line\">Line " ++ toString line ++ "</span>"
     | none => "") ++
    "\n                        </div>\n                    "
  let snippetPart :=
    match issue.line with
    | some line =>
      if line = 0 then [] else
        let snippet := extract_code_snippet (fs file_path) line 5
        if snippet.isEmpty then []
        else ["<div class=\"code-snippet\">" ++
          format_code_snippet_html snippet line severity ++ "</div>"]
    | none => []
  "\n".intercalate ([header] ++ snippetPart ++ ["</div>"])

/-- The HTML for one failing file inside a rule section. -/
def fileFailureHtml (fs : String → Option (List String))
    (failure : String × List Issue) : String :=
  "\n".intercalate
    (["<div class=\"file-failures\">",
      "<h4>" ++ htmlEscape failure.1 ++ "</h4>"] ++
     failure.2.map (issueBlockHtml fs failure.1) ++
     ["</div>"])

/-- The HTML for one rule section of `_generate_html_rules`. -/
def ruleSectionHtml (fs : String → Option (List String))
    (e : String × RuleAggregate) : String :=
  let data := e.2
  let is_passed := data.failed_files == 0
  let status_class := if is_passed then "passed" else "failed"
  let status_icon := if is_passed then "✓" else "✗"
  let header :=
    "\n        <div class=\"rule-section " ++ status_class ++
    "\">\n            <div class=\"rule-header\" onclick=\"toggleRule(this)\">\n" ++
    "                <span class=\"rule-status\">" ++ status_icon ++
    "</span>\n                <span class=\"rule-title\">" ++
    htmlEscape e.1 ++ "</span>\n" ++
    "                <span class=\"rule-description\">" ++
    htmlEscape data.description ++ "</span>\n" ++
    "                <span class=\"rule-stats\">(" ++
    toString data.passed_files ++ "/" ++ toString data.total_files ++
    " files passed)</span>\n            </div>\n        "
  let details :=
    if is_passed then []
    else ["<div class=\"rule-details\">"] ++
      data.failures.map (fileFailureHtml fs) ++
      ["</div>"]
  "\n".intercalate ([header] ++ details ++ ["</div>"])

/-- `_generate_html_rules`: failed rules first, then alphabetical by id;
one collapsible section per rule. -/
def generate_html_rules (fs : String → Option (List String))
    (grouped : List (String × RuleAggregate)) : String :=
  let sorted_rules := pySorted ruleSortLE grouped
  "\n".intercalate
    (["<div class=\"container\"><h2>Rules Detail</h2>"] ++
     sorted_rules.map (ruleSectionHtml fs) ++
     ["</div>"])
/-- Count of the three locale tokens occurring in a class string, with the
substring containment the rule itself tests (claim C4 reads the class
requirement as containing exactly one such token). -/
def localeTokenCount (cls : String) : Nat :=
  (["tc", "en", "sc"].filter (fun l => containsSub l cls)).length

/-! ## Theorems -/

-- helper lemmas about substring containment
theorem listHasPrefix_self_append (p t : List Char) :
    listHasPrefix p (p ++ t) = true := by
  induction p with
  | nil => rfl
  | cons c rest ih => simp [listHasPrefix, ih]

theorem listHasSub_self_append (p t : List Char) :
    listHasSub p (p ++ t) = true := by
  cases p with
  | nil =>
    cases t with
    | nil => rfl
    | cons c r => simp [listHasSub, listHasPrefix]
  | cons c rest =>
    have h := listHasPrefix_self_append (c :: rest) t
    simp only [List.cons_append] at h
    simp [listHasSub, h]

theorem listHasSub_cons (p : List Char) (c : Char) (l : List Char)
    (h : listHasSub p l = true) : listHasSub p (c :: l) = true := by
  simp [listHasSub, h]

theorem listHasSub_append_left (p a l : List Char)
    (h : listHasSub p l = true) : listHasSub p (a ++ l) = true := by
  induction a with
  | nil => exact h
  | cons c rest ih => exact listHasSub_cons _ _ _ ih

theorem string_data_append (s t : String) : (s ++ t).data = s.data ++ t.data := rfl

/-- A string occurring literally between two others is found by `containsSub`. -/
theorem containsSub_sandwich (pre v suf : String) :
    containsSub v (pre ++ v ++ suf) = true := by
  show listHasSub v.data (pre ++ v ++ suf).data = true
  have h : (pre ++ v ++ suf).data = pre.data ++ (v.data ++ suf.data) := by
    rw [string_data_append, string_data_append, List.append_assoc]
  rw [h]
  exact listHasSub_append_left _ _ _ (listHasSub_self_append _ _)

-- C2 evaluation theorem (code_bug)
/-- C2: `validate_file` catches an exception raised by a rule body with its
blanket `except Exception` clause: the file is downgraded to
`status="error"` labelled `Parsing error:`, with the issues accumulated by
earlier rules still present, instead of the exception propagating as a
fatal programming error. -/
theorem c2_rule_exception_swallowed :
    validate_file
      [("good-rule", "emits one issue",
          fun _ _ _ => .ok [mkIssue "good-rule" "error" "first issue" none]),
       ("bad-rule", "raises", fun _ _ _ => .error "boom")]
      "a.html" (.ok [""] ⟨[], none, none, [], none⟩) =
    ⟨"a.html", "error", [mkIssue "good-rule" "error" "first issue" none],
      some "Parsing error: boom"⟩ := by
  rfl

-- C3 counterexample + amended theorem
/-- C3 counterexample: a parsed document with no root `html` element and no
doctype declaration gets two `basic-structure` issues (the independent
doctype check also fires), not exactly one. -/
theorem c3_counterexample :
    (⟨[], none, none, [], none⟩ : HtmlDoc).htmlTag = none ∧
    (validate_basic_structure ⟨[], none, none, [], none⟩ "page.html" []).length ≠ 1 := by
  constructor
  · rfl
  · decide

/-- C3 amended: when the root element is absent the rule emits the
missing-root error, no attribute-check issue, and at most one other issue,
the independent missing-doctype error; with a doctype present the result is
exactly the single missing-root issue. -/
theorem c3_missing_root (soup : HtmlDoc) (path : String) (raw : List String)
    (h : soup.htmlTag = none) :
    validate_basic_structure soup path raw =
      (if doctypeFound soup then [] else
        [mkIssue "basic-structure" "error"
          "Missing DOCTYPE html declaration" none]) ++
      [mkIssue "basic-structure" "error" "Missing <html> tag" none] ∧
    (doctypeFound soup = true →
      validate_basic_structure soup path raw =
        [mkIssue "basic-structure" "error" "Missing <html> tag" none]) := by
  unfold validate_basic_structure
  rw [h]
  refine ⟨rfl, fun hd => ?_⟩
  rw [hd]
  rfl

/-- C3 witness: a document with a doctype but no root element yields exactly
the missing-root issue. -/
theorem c3_missing_root_witness :
    validate_basic_structure ⟨["DOCTYPE html"], none, none, [], none⟩ "p.html" [] =
      [mkIssue "basic-structure" "error" "Missing <html> tag" none] :=
  (c3_missing_root ⟨["DOCTYPE html"], none, none, [], none⟩ "p.html" [] rfl).2
    (by decide)

-- C8
/-- C8: snippet extraction is total: a failed read yields the empty
snippet; on a successful read every returned line number lies within the
file bounds (the indexing in the loop is in bounds) and carries that line's
content; every line of the window clipped to the file is returned; and on
a 4-line file with `line=3`, window 5, the snippet is exactly lines 1-4. -/
theorem c8_snippet_clipping :
    (∀ line ctx, extract_code_snippet none line ctx = []) ∧
    (∀ (lines : List String) (line_num : Nat),
      ∀ p ∈ extract_code_snippet (some lines) line_num 5,
        1 ≤ p.1 ∧ p.1 ≤ lines.length ∧ p.1 - 1 < lines.length ∧
        p.2 = rstripNewline ((lines.get? (p.1 - 1)).getD "")) ∧
    (∀ (lines : List String) (line_num n : Nat),
      1 ≤ n → n ≤ lines.length → line_num - 5 ≤ n → n ≤ line_num + 5 →
      (n, rstripNewline ((lines.get? (n - 1)).getD ""))
        ∈ extract_code_snippet (some lines) line_num 5) ∧
    (extract_code_snippet (some ["l1\n", "l2\n", "l3\n", "l4"]) 3 5 =
      [(1, "l1"), (2, "l2"), (3, "l3"), (4, "l4")]) := by
  refine ⟨fun _ _ => rfl, ?_, ?_, by decide⟩
  · intro lines line_num p hp
    unfold extract_code_snippet at hp
    simp only [List.mem_map] at hp
    obtain ⟨i, hi, rfl⟩ := hp
    rw [List.mem_range'_1] at hi
    obtain ⟨hi1, hi2⟩ := hi
    refine ⟨by omega, by omega, by omega, by simp⟩
  · intro lines line_num n h1 h2 h3 h4
    unfold extract_code_snippet
    simp only [List.mem_map]
    refine ⟨n - 1, ?_, ?_⟩
    · rw [List.mem_range'_1]
      constructor <;> omega
    · have hn : n - 1 + 1 = n := by omega
      rw [hn]
-- C5
/-- C5: with a `head` element present, a missing charset declaration yields
the metadata error, and a charset whose value does not case-fold to
`utf-8` yields an error whose message cites the found value verbatim
(the value is a substring of the message). -/
theorem c5_charset_value (soup : HtmlDoc) (path : String) (raw : List String)
    (head : HeadTag) (hhead : soup.headTag = some head) :
    (soup.metas.find? (fun m => m.charset.isSome) = none →
      mkIssue "required-meta-tags" "error" "Missing required meta tag: charset"
        head.sourceline ∈ validate_meta_tags soup path raw) ∧
    (∀ m v, soup.metas.find? (fun m => m.charset.isSome) = some m →
      m.charset = some v → pyToLower v ≠ "utf-8" →
      mkIssue "required-meta-tags" "error"
          ("Charset should be 'utf-8', found '" ++ v ++ "'") m.sourceline
        ∈ validate_meta_tags soup path raw ∧
      containsSub v ("Charset should be 'utf-8', found '" ++ v ++ "'") = true) := by
  constructor
  · intro hnone
    unfold validate_meta_tags
    rw [hhead, hnone]
    simp
  · intro m v hfind hcs hne
    constructor
    · unfold validate_meta_tags
      rw [hhead, hfind]
      dsimp only
      rw [hcs]
      have hgd : (some v).getD "" = v := rfl
      rw [hgd]
      have hbe : (pyToLower v == "utf-8") = false := by
        simp [hne]
      rw [hbe]
      simp [optStr]
    · have h := containsSub_sandwich "Charset should be 'utf-8', found '" v "'"
      simpa using h

/-- C5 witness: a document declaring charset `UTF8` (no hyphen) gets the
metadata error citing `UTF8`. -/
theorem c5_charset_value_witness :
    mkIssue "required-meta-tags" "error" "Charset should be 'utf-8', found 'UTF8'"
        (some 3)
      ∈ validate_meta_tags
          ⟨[], none, some ⟨some 2⟩, [⟨some "UTF8", none, none, none, some 3⟩], none⟩
          "p.html" [] ∧
    containsSub "UTF8" "Charset should be 'utf-8', found 'UTF8'" = true := by
  have h := (c5_charset_value
    ⟨[], none, some ⟨some 2⟩, [⟨some "UTF8", none, none, none, some 3⟩], none⟩
    "p.html" [] ⟨some 2⟩ rfl).2
    ⟨some "UTF8", none, none, none, some 3⟩ "UTF8" (by decide) rfl (by decide)
  exact h

-- C6
/-- C6: the locale-path rule is silent on paths containing none of the three
locale segments; and a document under a `chi` segment whose root class
contains the expected `tc` token but whose `lang` is `en` yields exactly one
issue, the `lang`-mismatch error, whose message contains the found value
`en`. -/
theorem c6_locale_path (soup : HtmlDoc) (path : String) (raw : List String) :
    (containsSub "/chi/" (pyReplace (pyToLower path) "\\" "/") = false →
     containsSub "/eng/" (pyReplace (pyToLower path) "\\" "/") = false →
     containsSub "/schi/" (pyReplace (pyToLower path) "\\" "/") = false →
     validate_language_consistency soup path raw = []) ∧
    (∀ t : RootTag,
     containsSub "/chi/" (pyReplace (pyToLower path) "\\" "/") = true →
     soup.htmlTag = some t →
     containsSub "tc" (classString t) = true →
     t.lang = some "en" →
     validate_language_consistency soup path raw =
       [mkIssue "language-consistency" "error"
         "HTML lang attribute should be 'zh-hant' for files in chi/ directory, found 'en'"
         t.sourceline] ∧
     containsSub "en"
       "HTML lang attribute should be 'zh-hant' for files in chi/ directory, found 'en'"
       = true) := by
  constructor
  · intro h1 h2 h3
    unfold validate_language_consistency
    dsimp only
    rw [h1, h2, h3]
    simp
  · intro t h1 ht hcls hlang
    refine ⟨?_, by decide⟩
    have hdir : localeDirName "tc" = "chi" := by decide
    have hbeq : ((some "en" : Option String) == some "zh-hant") = false := by decide
    unfold validate_language_consistency
    dsimp only
    rw [h1]
    simp only [if_true, ht, hcls, hlang, hbeq, optStr, hdir, mkIssue,
      Issue.mk.injEq, Bool.false_eq_true, if_false, List.nil_append,
      List.cons.injEq, and_true, true_and]
    decide

/-- C6 witness: the two parts instantiated: a path with no locale segment is
silent, and the `chi`-segment `lang` mismatch yields the single issue. -/
theorem c6_locale_path_witness :
    validate_language_consistency
      ⟨[], some ⟨some ["no-js", "tc"], some "en", some 2⟩, none, [], none⟩
      "/www/pages/a.html" [] = [] ∧
    validate_language_consistency
      ⟨[], some ⟨some ["no-js", "tc"], some "en", some 2⟩, none, [], none⟩
      "/www/chi/a.html" [] =
      [mkIssue "language-consistency" "error"
        "HTML lang attribute should be 'zh-hant' for files in chi/ directory, found 'en'"
        (some 2)] := by
  constructor
  · exact (c6_locale_path
      ⟨[], some ⟨some ["no-js", "tc"], some "en", some 2⟩, none, [], none⟩
      "/www/pages/a.html" []).1 (by decide) (by decide) (by decide)
  · exact ((c6_locale_path
      ⟨[], some ⟨some ["no-js", "tc"], some "en", some 2⟩, none, [], none⟩
      "/www/chi/a.html" []).2 ⟨some ["no-js", "tc"], some "en", some 2⟩
      (by decide) rfl (by decide) rfl).1

/-- C8 witness: the bounds part and the window part instantiated on a
one-line file. -/
theorem c8_snippet_clipping_witness :
    (1 ≤ 1 ∧ 1 ≤ (["only line"] : List String).length ∧
      1 - 1 < (["only line"] : List String).length ∧
      "only line" = rstripNewline (((["only line"] : List String).get? (1 - 1)).getD "")) ∧
    (1, rstripNewline (((["only line"] : List String).get? (1 - 1)).getD ""))
      ∈ extract_code_snippet (some ["only line"]) 1 5 := by
  constructor
  · exact c8_snippet_clipping.2.1 ["only line"] 1 (1, "only line") (by decide)
  · exact c8_snippet_clipping.2.2.1 ["only line"] 1 1 (by decide) (by decide)
      (by decide) (by decide)

theorem invalid_lang_msg_ne (l m : String)
    (h : listHasPrefix "Invalid".data m.data = false) :
    m ≠ "Invalid lang attribute '" ++ l ++ "'. Expected: zh-hant, en, or zh-hans" := by
  intro he
  rw [he] at h
  have hp : listHasPrefix "Invalid".data
      ("Invalid lang attribute '" ++ l ++
        "'. Expected: zh-hant, en, or zh-hans").data = true := rfl
  rw [hp] at h
  cases h

theorem localeTokenCount_eq_zero_iff (cls : String) :
    localeTokenCount cls = 0 ↔
      (["tc", "en", "sc"].any (fun l => containsSub l cls)) = false := by
  unfold localeTokenCount
  cases h1 : containsSub "tc" cls <;> cases h2 : containsSub "en" cls <;>
    cases h3 : containsSub "sc" cls <;>
    simp [List.filter, List.any, h1, h2, h3]

/-- C4 counterexample: the rule accepts a root whose class carries two of
the three locale tokens (the code tests "at least one", by substring), so
the spec's "exactly one locale token" acceptance condition is not what the
code enforces. -/
theorem c4_counterexample :
    validate_basic_structure
      ⟨["DOCTYPE html"],
        some ⟨some ["no-js", "tc", "sc"], some "zh-hant", some 1⟩,
        none, [], none⟩ "p.html" [] = [] ∧
    localeTokenCount
      (classString ⟨some ["no-js", "tc", "sc"], some "zh-hant", some 1⟩) = 2 := by
  constructor
  · decide
  · decide

set_option maxHeartbeats 2000000 in
/-- C4 amended: with a root element present, the rule accepts the `class`
attribute iff it is non-empty, contains the marker token `no-js` and at
least one (not exactly one) of the locale tokens `tc`/`en`/`sc`, all as
substrings; it accepts the `lang` attribute iff it equals one of the three
exact values; every issue it emits is error-severity, and the number of
issues is exactly the number of violated conditions (so each violated
condition emits one issue). -/
theorem c4_root_attribute_checks (soup : HtmlDoc) (path : String)
    (raw : List String) (t : RootTag) (h : soup.htmlTag = some t) :
    (mkIssue "basic-structure" "error" "HTML tag missing class attribute"
        t.sourceline ∈ validate_basic_structure soup path raw ↔
      classString t = "") ∧
    (mkIssue "basic-structure" "error" "HTML class should contain 'no-js'"
        t.sourceline ∈ validate_basic_structure soup path raw ↔
      (classString t ≠ "" ∧ containsSub "no-js" (classString t) = false)) ∧
    (mkIssue "basic-structure" "error"
        "HTML class should contain language code (tc/en/sc)"
        t.sourceline ∈ validate_basic_structure soup path raw ↔
      (classString t ≠ "" ∧ localeTokenCount (classString t) = 0)) ∧
    (mkIssue "basic-structure" "error" "HTML tag missing lang attribute"
        t.sourceline ∈ validate_basic_structure soup path raw ↔
      (t.lang = none ∨ t.lang = some "")) ∧
    (∀ l, t.lang = some l → l ≠ "" →
      (mkIssue "basic-structure" "error"
          ("Invalid lang attribute '" ++ l ++
            "'. Expected: zh-hant, en, or zh-hans")
          t.sourceline ∈ validate_basic_structure soup path raw ↔
        ¬(l = "zh-hant" ∨ l = "en" ∨ l = "zh-hans"))) ∧
    (∀ i ∈ validate_basic_structure soup path raw, i.severity = "error") ∧
    ((validate_basic_structure soup path raw).length =
      (if doctypeFound soup then 0 else 1) +
      ((if classString t = "" then 1 else
        (if containsSub "no-js" (classString t) = true then 0 else 1) +
        (if localeTokenCount (classString t) = 0 then 1 else 0)) +
      (match t.lang with
       | none => 1
       | some l => if l = "" then 1
         else if l = "zh-hant" ∨ l = "en" ∨ l = "zh-hans" then 0 else 1))) := by
  have hcnt := localeTokenCount_eq_zero_iff (classString t)
  unfold validate_basic_structure
  rw [h]
  dsimp only
  rcases hl : t.lang with _ | l
  · cases hd : doctypeFound soup <;>
      cases hcz : (classString t == "") <;>
      cases hnj : containsSub "no-js" (classString t) <;>
      cases hloc : (["tc", "en", "sc"].any fun l => containsSub l (classString t)) <;>
      simp_all [mkIssue, Issue.mk.injEq, beq_iff_eq, List.mem_append]
  · have hne1 := invalid_lang_msg_ne l "HTML tag missing class attribute" (by rfl)
    have hne2 := invalid_lang_msg_ne l "HTML class should contain 'no-js'" (by rfl)
    have hne3 := invalid_lang_msg_ne l
      "HTML class should contain language code (tc/en/sc)" (by rfl)
    have hne4 := invalid_lang_msg_ne l "HTML tag missing lang attribute" (by rfl)
    have hne5 := invalid_lang_msg_ne l "Missing DOCTYPE html declaration" (by rfl)
    have hne1r := Ne.symm hne1
    have hne2r := Ne.symm hne2
    have hne3r := Ne.symm hne3
    have hne4r := Ne.symm hne4
    have hne5r := Ne.symm hne5
    by_cases hle : l = ""
    · subst hle
      cases hd : doctypeFound soup <;>
        cases hcz : (classString t == "") <;>
        cases hnj : containsSub "no-js" (classString t) <;>
        cases hloc : (["tc", "en", "sc"].any fun l => containsSub l (classString t)) <;>
        simp_all [mkIssue, Issue.mk.injEq, beq_iff_eq, List.mem_append]
    · by_cases hlv : l = "zh-hant" ∨ l = "en" ∨ l = "zh-hans"
      · rcases hlv with rfl | rfl | rfl <;>
        · cases hd : doctypeFound soup <;>
            cases hcz : (classString t == "") <;>
            cases hnj : containsSub "no-js" (classString t) <;>
            cases hloc : (["tc", "en", "sc"].any fun l => containsSub l (classString t)) <;>
            simp_all [mkIssue, Issue.mk.injEq, beq_iff_eq, List.mem_append]
      · have hbv : (l == "zh-hant" || l == "en" || l == "zh-hans") = false := by
          simp only [Bool.or_eq_false_iff, beq_eq_false_iff_ne]
          push_neg at hlv
          exact ⟨⟨hlv.1, hlv.2.1⟩, hlv.2.2⟩
        cases hd : doctypeFound soup <;>
          cases hcz : (classString t == "") <;>
          cases hnj : containsSub "no-js" (classString t) <;>
          cases hloc : (["tc", "en", "sc"].any fun l => containsSub l (classString t)) <;>
          simp_all [mkIssue, Issue.mk.injEq, beq_iff_eq, List.mem_append]

/-- C4 witness: the characterization instantiated on a concrete root whose
class lacks the marker token: the marker issue is present and the locale
issue absent. -/
theorem c4_root_attribute_checks_witness :
    (mkIssue "basic-structure" "error" "HTML class should contain 'no-js'"
        (some 1) ∈ validate_basic_structure
          ⟨["DOCTYPE html"], some ⟨some ["tc"], some "zh-hant", some 1⟩,
            none, [], none⟩ "p.html" [] ↔
      (classString ⟨some ["tc"], some "zh-hant", some 1⟩ ≠ "" ∧
        containsSub "no-js" (classString ⟨some ["tc"], some "zh-hant", some 1⟩)
          = false)) := by
  have h := (c4_root_attribute_checks
    ⟨["DOCTYPE html"], some ⟨some ["tc"], some "zh-hant", some 1⟩,
      none, [], none⟩ "p.html" [] ⟨some ["tc"], some "zh-hant", some 1⟩
    rfl).2.1
  exact h

theorem json_foldl_spec (results : List FileResult)
    (acc : List JsonFileEntry) (e w : Nat) :
    results.foldl jsonStep (acc, e, w) =
      (acc ++ (results.filter
          (fun r => r.status == "failed" || r.status == "error")).map
            jsonFileEntry,
       e + ((results.filter
          (fun r => r.status == "failed" || r.status == "error")).map
            (fun r => (r.issues.filter
              (fun i => i.severity == "error")).length)).sum,
       w + ((results.filter
          (fun r => r.status == "failed" || r.status == "error")).map
            (fun r => (r.issues.filter
              (fun i => i.severity == "warning")).length)).sum) := by
  induction results generalizing acc e w with
  | nil => simp
  | cons r rest ih =>
    simp only [List.foldl_cons, jsonStep]
    by_cases h : (r.status == "failed" || r.status == "error") = true
    · rw [if_pos h, ih]
      simp [List.filter_cons, h, Nat.add_assoc]
    · rw [if_neg h, ih]
      simp only [Bool.not_eq_true] at h
      simp [List.filter_cons, h]

theorem runRules_all_ok_nil (rules : List (String × String × RuleFn))
    (soup : HtmlDoc) (path : String) (raw : List String)
    (acc : List Issue)
    (h : ∀ rd ∈ rules, rd.2.2 soup path raw = .ok []) :
    runRules rules soup path raw acc = (acc, none) := by
  induction rules generalizing acc with
  | nil => rfl
  | cons rd rest ih =>
    obtain ⟨rid, desc, f⟩ := rd
    have h1 : f soup path raw = .ok [] := h (rid, desc, f) (by simp)
    simp only [runRules]
    rw [h1]
    simp only [List.append_nil]
    exact ih _ (fun x hx => h x (by simp [hx]))

/-- C7: the structured output's `files` list is exactly the failed/error
results, in input order (passed files are omitted); the summary carries
the five counts as the code computes them; and a document all of whose
rules emit no issues gets `status="passed"`, which excludes it from the
`files` list, every entry of which has status failed or error. -/
theorem c7_json_output (results : List FileResult) :
    (format_json_output results).files =
      (results.filter
        (fun r => r.status == "failed" || r.status == "error")).map
          jsonFileEntry ∧
    (format_json_output results).total_files = results.length ∧
    (format_json_output results).passed =
      (results.filter (fun r => r.status == "passed")).length ∧
    (format_json_output results).failed =
      results.length -
        (results.filter (fun r => r.status == "passed")).length ∧
    (format_json_output results).total_errors =
      ((results.filter
        (fun r => r.status == "failed" || r.status == "error")).map
          (fun r => (r.issues.filter
            (fun i => i.severity == "error")).length)).sum ∧
    (format_json_output results).total_warnings =
      ((results.filter
        (fun r => r.status == "failed" || r.status == "error")).map
          (fun r => (r.issues.filter
            (fun i => i.severity == "warning")).length)).sum ∧
    (∀ e ∈ (format_json_output results).files,
      e.status = "failed" ∨ e.status = "error") ∧
    (∀ (rules : List (String × String × RuleFn)) (path : String)
        (raw : List String) (soup : HtmlDoc),
      (∀ rd ∈ rules, rd.2.2 soup path raw = .ok ([] : List Issue)) →
      validate_file rules path (.ok raw soup) =
        ⟨path, "passed", [], none⟩) := by
  refine ⟨?_, rfl, rfl, rfl, ?_, ?_, ?_, ?_⟩
  · show (results.foldl jsonStep ([], 0, 0)).1 = _
    rw [json_foldl_spec]
    simp
  · show (results.foldl jsonStep ([], 0, 0)).2.1 = _
    rw [json_foldl_spec]
    simp
  · show (results.foldl jsonStep ([], 0, 0)).2.2 = _
    rw [json_foldl_spec]
    simp
  · intro e he
    have hfiles : (format_json_output results).files =
        (results.filter
          (fun r => r.status == "failed" || r.status == "error")).map
            jsonFileEntry := by
      show (results.foldl jsonStep ([], 0, 0)).1 = _
      rw [json_foldl_spec]
      simp
    rw [hfiles] at he
    simp only [List.mem_map, List.mem_filter] at he
    obtain ⟨r, ⟨_, hst⟩, rfl⟩ := he
    unfold jsonFileEntry
    by_cases herr : (r.status == "error") = true
    · rw [if_pos herr]
      right
      simpa [beq_iff_eq] using herr
    · rw [if_neg herr]
      left
      simp only [Bool.or_eq_true, beq_iff_eq] at hst
      rcases hst with h | h
      · exact h
      · exact absurd (by simp [h] : (r.status == "error") = true) herr
  · intro rules path raw soup hall
    unfold validate_file
    dsimp only
    rw [runRules_all_ok_nil rules soup path raw [] hall]
    rfl

/-- C7 witness: a fully compliant document passes every registered rule, so
`validate_file` classifies it `passed`, and the empty result collection
gives the empty `files` list. -/
theorem c7_json_output_witness :
    validate_file get_all_rules "p.html"
      (.ok ["<!DOCTYPE html>"]
        ⟨["DOCTYPE html"],
         some ⟨some ["no-js", "en"], some "en", some 2⟩,
         some ⟨some 3⟩,
         [⟨some "utf-8", none, none, none, some 4⟩,
          ⟨none, some "x-ua-compatible", none, some "ie=edge", some 5⟩,
          ⟨none, none, some "viewport", some "width=device-width", some 6⟩,
          ⟨none, some "Cache-Control", none, some "no-cache", some 7⟩,
          ⟨none, some "Pragma", none, some "no-cache", some 8⟩,
          ⟨none, some "Expires", none, some "0", some 9⟩,
          ⟨none, none, some "keywords", some "k", some 10⟩,
          ⟨none, none, some "description", some "d", some 11⟩,
          ⟨none, none, some "summary", some "s", some 12⟩],
         some ⟨some "Title"⟩⟩) =
      ⟨"p.html", "passed", [], none⟩ := by
  refine (c7_json_output []).2.2.2.2.2.2.2 get_all_rules "p.html"
    ["<!DOCTYPE html>"] _ ?_
  intro rd hrd
  simp only [get_all_rules, List.mem_cons, List.not_mem_nil, or_false] at hrd
  rcases hrd with rfl | rfl | rfl <;> rfl

/-! ### Association-list lemmas for the aggregation -/

theorem alistGet?_alistSet {α : Type} (m : List (String × α)) (k : String)
    (v : α) (k2 : String) :
    alistGet? (alistSet m k v) k2 =
      if k = k2 then some v else alistGet? m k2 := by
  induction m with
  | nil => simp [alistSet, alistGet?]
  | cons e rest ih =>
    obtain ⟨a, b⟩ := e
    by_cases hak : a = k
    · subst hak
      simp only [alistSet, if_pos rfl, alistGet?]
      by_cases hk2 : a = k2 <;> simp [hk2]
    · simp only [alistSet, if_neg hak, alistGet?]
      by_cases hk2 : a = k2
      · subst hk2
        have : ¬ k = a := fun h => hak h.symm
        simp [this]
      · simp [hk2, ih]

theorem alistGet?_alistModify {α : Type} (m : List (String × α)) (k : String)
    (f : α → α) (k2 : String) :
    alistGet? (alistModify m k f) k2 =
      if k = k2 then (alistGet? m k).map f else alistGet? m k2 := by
  induction m with
  | nil => simp [alistModify, alistGet?]
  | cons e rest ih =>
    obtain ⟨a, b⟩ := e
    by_cases hak : a = k
    · subst hak
      simp only [alistModify, if_pos rfl, alistGet?]
      by_cases hk2 : a = k2 <;> simp [hk2]
    · simp only [alistModify, if_neg hak, alistGet?]
      by_cases hk2 : a = k2
      · subst hk2
        have : ¬ k = a := fun h => hak h.symm
        simp [this]
      · simp [hk2, ih]

theorem alistGet?_append_single {α : Type} (m : List (String × α))
    (k : String) (v : α) (k2 : String) :
    alistGet? (m ++ [(k, v)]) k2 =
      match alistGet? m k2 with
      | some w => some w
      | none => if k = k2 then some v else none := by
  induction m with
  | nil => simp [alistGet?]
  | cons e rest ih =>
    obtain ⟨a, b⟩ := e
    by_cases hk2 : a = k2
    · simp [alistGet?, hk2]
    · simp [alistGet?, hk2, ih]

theorem alistGet?_eq_none_iff {α : Type} (m : List (String × α)) (k : String) :
    alistGet? m k = none ↔ k ∉ m.map Prod.fst := by
  induction m with
  | nil => simp [alistGet?]
  | cons e rest ih =>
    obtain ⟨a, b⟩ := e
    by_cases hk : a = k
    · simp [alistGet?, hk]
    · have hk2 : ¬ k = a := fun h => hk h.symm
      simp [alistGet?, hk, ih, hk2]

theorem mem_of_alistGet?_eq_some {α : Type} (m : List (String × α))
    (k : String) (v : α) (h : alistGet? m k = some v) : (k, v) ∈ m := by
  induction m with
  | nil => simp [alistGet?] at h
  | cons e rest ih =>
    obtain ⟨a, b⟩ := e
    by_cases hk : a = k
    · rw [show alistGet? ((a, b) :: rest) k = some b by simp [alistGet?, hk]]
        at h
      rw [Option.some.injEq] at h
      rw [hk, h]
      simp
    · simp only [alistGet?, if_neg hk] at h
      exact List.mem_cons_of_mem _ (ih h)

theorem alistGet?_eq_some_of_mem {α : Type} (m : List (String × α))
    (k : String) (v : α) (hnd : (m.map Prod.fst).Nodup)
    (h : (k, v) ∈ m) : alistGet? m k = some v := by
  induction m with
  | nil => simp at h
  | cons e rest ih =>
    obtain ⟨a, b⟩ := e
    simp only [List.map_cons, List.nodup_cons] at hnd
    rcases List.mem_cons.mp h with he | hrest
    · rw [Prod.ext_iff] at he
      obtain ⟨h1, h2⟩ := he
      simp only at h1 h2
      subst h1
      subst h2
      simp [alistGet?]
    · have hk : a ≠ k := by
        intro hak
        refine hnd.1 ?_
        rw [hak]
        exact List.mem_map.mpr ⟨(k, v), hrest, rfl⟩
      simp only [alistGet?, if_neg hk]
      exact ih hnd.2 hrest

theorem keys_alistModify {α : Type} (m : List (String × α)) (k : String)
    (f : α → α) :
    (alistModify m k f).map Prod.fst = m.map Prod.fst := by
  induction m with
  | nil => rfl
  | cons e rest ih =>
    obtain ⟨a, b⟩ := e
    by_cases hak : a = k <;> simp [alistModify, hak, ih]

theorem keys_alistSet_nodup {α : Type} (m : List (String × α)) (k : String)
    (v : α) (hnd : (m.map Prod.fst).Nodup) :
    ((alistSet m k v).map Prod.fst).Nodup := by
  induction m with
  | nil => simp [alistSet]
  | cons e rest ih =>
    obtain ⟨a, b⟩ := e
    simp only [List.map_cons, List.nodup_cons] at hnd
    by_cases hak : a = k
    · rw [show alistSet ((a, b) :: rest) k v = (a, v) :: rest by
        simp [alistSet, hak]]
      simp only [List.map_cons, List.nodup_cons]
      exact ⟨hnd.1, hnd.2⟩
    · simp only [alistSet, if_neg hak, List.map_cons, List.nodup_cons]
      refine ⟨?_, ih hnd.2⟩
      intro hmem
      rcases List.mem_map.mp hmem with ⟨e2, he2, hfst⟩
      -- a appears among the keys of `alistSet rest k v`
      by_cases hget : (alistGet? (alistSet rest k v) a).isSome
      · have := alistGet?_alistSet rest k v a
        by_cases hka : k = a
        · exact hak hka.symm
        · rw [if_neg hka] at this
          rcases Option.isSome_iff_exists.mp hget with ⟨w, hw⟩
          rw [this] at hw
          exact hnd.1 (List.mem_map.mpr ⟨(a, w),
            mem_of_alistGet?_eq_some _ _ _ hw, rfl⟩)
      · rw [Option.not_isSome_iff_eq_none, alistGet?_eq_none_iff] at hget
        exact hget (hfst ▸ List.mem_map.mpr ⟨e2, he2, rfl⟩)

theorem alistGet?_alistAppendIssue (m : List (String × List Issue))
    (k : String) (i : Issue) (k2 : String) :
    alistGet? (alistAppendIssue m k i) k2 =
      if k = k2 then some (((alistGet? m k).getD []) ++ [i])
      else alistGet? m k2 := by
  unfold alistAppendIssue
  cases hm : alistGet? m k with
  | some v =>
    rw [alistGet?_alistModify]
    by_cases hk : k = k2
    · rw [if_pos hk, if_pos hk, hm]
      rfl
    · rw [if_neg hk, if_neg hk]
  | none =>
    rw [alistGet?_append_single]
    by_cases hk : k = k2
    · rw [← hk, hm]
      simp
    · by_cases h2 : (alistGet? m k2).isSome
      · rcases Option.isSome_iff_exists.mp h2 with ⟨w, hw⟩
        simp [hw, hk]
      · rw [Option.not_isSome_iff_eq_none] at h2
        simp [h2, hk]

theorem keys_alistAppendIssue_nodup (m : List (String × List Issue))
    (k : String) (i : Issue) (hnd : (m.map Prod.fst).Nodup) :
    ((alistAppendIssue m k i).map Prod.fst).Nodup := by
  unfold alistAppendIssue
  cases hm : alistGet? m k with
  | some v => rw [keys_alistModify]; exact hnd
  | none =>
    rw [alistGet?_eq_none_iff] at hm
    simp only [List.map_append, List.map_cons, List.map_nil]
    rw [List.nodup_append]
    exact ⟨hnd, by simp, by simp [hm]⟩

theorem fibr_fold_get (issues : List Issue) (m : List (String × List Issue))
    (k : String) :
    alistGet? (issues.foldl (fun m i => alistAppendIssue m i.rule i) m) k =
      match alistGet? m k with
      | some v => some (v ++ issues.filter (fun i => i.rule == k))
      | none =>
          if (issues.filter (fun i => i.rule == k)).isEmpty then none
          else some (issues.filter (fun i => i.rule == k)) := by
  induction issues generalizing m with
  | nil =>
    cases hm : alistGet? m k <;> simp [hm]
  | cons i rest ih =>
    simp only [List.foldl_cons]
    rw [ih]
    by_cases hik : i.rule = k
    · have hbeq : (i.rule == k) = true := by simp [hik]
      rw [alistGet?_alistAppendIssue, hik, if_pos rfl]
      cases hm : alistGet? m k with
      | some v => simp [List.filter_cons, hbeq, hm]
      | none => simp [List.filter_cons, hbeq, hm]
    · have hbeq : (i.rule == k) = false := by simp [hik]
      rw [alistGet?_alistAppendIssue, if_neg hik]
      cases hm : alistGet? m k <;> simp [List.filter_cons, hbeq, hm]

theorem fibr_keys_nodup (issues : List Issue)
    (m : List (String × List Issue)) (hnd : (m.map Prod.fst).Nodup) :
    (((issues.foldl (fun m i => alistAppendIssue m i.rule i) m)).map
      Prod.fst).Nodup := by
  induction issues generalizing m with
  | nil => exact hnd
  | cons i rest ih =>
    simp only [List.foldl_cons]
    exact ih _ (keys_alistAppendIssue_nodup _ _ _ hnd)

theorem filter_key_eq_nil {α : Type} (m : List (String × α)) (k : String)
    (h : k ∉ m.map Prod.fst) :
    m.filter (fun e => e.1 == k) = [] := by
  induction m with
  | nil => rfl
  | cons e rest ih =>
    obtain ⟨a, b⟩ := e
    simp only [List.map_cons, List.mem_cons, not_or] at h
    have : ((a, b).1 == k) = false := by
      simp
      exact fun hh => h.1 (hh ▸ rfl)
    rw [List.filter_cons, this]
    simp only [Bool.false_eq_true, if_false]
    exact ih h.2

theorem filter_key_of_nodup {α : Type} (m : List (String × α)) (k : String)
    (hnd : (m.map Prod.fst).Nodup) :
    m.filter (fun e => e.1 == k) =
      match alistGet? m k with
      | some v => [(k, v)]
      | none => [] := by
  induction m with
  | nil => rfl
  | cons e rest ih =>
    obtain ⟨a, b⟩ := e
    simp only [List.map_cons, List.nodup_cons] at hnd
    by_cases hk : a = k
    · have hbeq : ((a, b).1 == k) = true := by simp [hk]
      rw [List.filter_cons, hbeq]
      have hrest : rest.filter (fun e => e.1 == k) = [] := by
        refine filter_key_eq_nil rest k ?_
        rw [← hk]
        exact hnd.1
      simp only [if_true]
      rw [hrest]
      have : alistGet? ((a, b) :: rest) k = some b := by simp [alistGet?, hk]
      rw [this, hk]
    · have hbeq : ((a, b).1 == k) = false := by simp [hk]
      rw [List.filter_cons, hbeq]
      simp only [Bool.false_eq_true, if_false]
      rw [ih hnd.2]
      have : alistGet? ((a, b) :: rest) k = alistGet? rest k := by
        simp [alistGet?, hk]
      rw [this]

theorem listAddSet_idem (s : List String) (x : String) :
    listAddSet (listAddSet s x) x = listAddSet s x := by
  unfold listAddSet
  by_cases h : x ∈ s
  · simp [h]
  · simp [h]

theorem mem_listAddSet (s : List String) (x p : String) :
    p ∈ listAddSet s x ↔ p ∈ s ∨ p = x := by
  unfold listAddSet
  by_cases h : x ∈ s
  · simp only [if_pos h]
    constructor
    · exact Or.inl
    · rintro (hp | rfl)
      · exact hp
      · exact h
  · simp [if_neg h]

theorem listAddSet_nodup (s : List String) (x : String) (h : s.Nodup) :
    (listAddSet s x).Nodup := by
  unfold listAddSet
  by_cases hx : x ∈ s
  · simpa [hx]
  · simp only [if_neg hx]
    rw [List.nodup_append]
    exact ⟨h, by simp, by simp [hx]⟩

theorem listAddSet_length_le (s : List String) (x : String) :
    (listAddSet s x).length ≤ s.length + 1 := by
  unfold listAddSet
  by_cases hx : x ∈ s <;> simp [hx]

/-! ### The grouping loop, rule by rule -/

theorem processFileEntries_fst_get (p : String)
    (entries : List (String × List Issue)) (st : GroupState) (k : String) :
    alistGet? (processFileEntries p entries st).1 k =
      (alistGet? st.1 k).map (fun agg =>
        { agg with failures := agg.failures ++
            (entries.filter (fun e => e.1 == k)).map (fun e => (p, e.2)) }) := by
  induction entries generalizing st with
  | nil =>
    cases hm : alistGet? st.1 k with
    | none => simp [processFileEntries, hm]
    | some agg => simp [processFileEntries, hm]
  | cons e rest ih =>
    obtain ⟨ek, eis⟩ := e
    simp only [processFileEntries, List.foldl_cons] at ih ⊢
    by_cases hg : (alistGet? st.1 ek).isSome
    · rw [if_pos hg]
      rw [ih]
      rw [alistGet?_alistModify]
      by_cases hek : ek = k
      · subst hek
        rcases Option.isSome_iff_exists.mp hg with ⟨agg, hagg⟩
        rw [if_pos rfl, hagg]
        simp [List.filter_cons, List.append_assoc]
      · have hbeq : (((ek, eis) : String × List Issue).1 == k) = false := by
          simp [hek]
        rw [if_neg hek]
        simp [List.filter_cons, hbeq]
    · rw [if_neg hg]
      rw [ih]
      by_cases hek : ek = k
      · subst hek
        rw [Option.not_isSome_iff_eq_none] at hg
        simp [hg]
      · have hbeq : (((ek, eis) : String × List Issue).1 == k) = false := by
          simp [hek]
        simp [List.filter_cons, hbeq]

theorem processFileEntries_snd_get (p : String)
    (entries : List (String × List Issue)) (st : GroupState) (k : String) :
    alistGet? (processFileEntries p entries st).2 k =
      if (alistGet? st.1 k).isSome ∧
          (entries.any (fun e => e.1 == k)) = true then
        (alistGet? st.2 k).map (fun s => listAddSet s p)
      else alistGet? st.2 k := by
  induction entries generalizing st with
  | nil => simp [processFileEntries]
  | cons e rest ih =>
    obtain ⟨ek, eis⟩ := e
    simp only [processFileEntries, List.foldl_cons] at ih ⊢
    by_cases hg : (alistGet? st.1 ek).isSome
    · rw [if_pos hg, ih]
      by_cases hek : ek = k
      · subst hek
        have hiso : (alistGet? (alistModify st.1 ek (fun agg =>
            { agg with failures := agg.failures ++ [(p, eis)] })) ek).isSome
            = true := by
          rw [alistGet?_alistModify, if_pos rfl]
          simpa using hg
        have hsnd : alistGet? (alistModify st.2 ek
            (fun s => listAddSet s p)) ek =
            (alistGet? st.2 ek).map (fun s => listAddSet s p) := by
          rw [alistGet?_alistModify, if_pos rfl]
        have hany : (((ek, eis) :: rest).any (fun e => e.1 == ek)) = true := by
          simp
        by_cases hrest : (rest.any (fun e => e.1 == ek)) = true
        · rw [if_pos ⟨hiso, hrest⟩, if_pos ⟨hg, hany⟩, hsnd]
          cases hm : alistGet? st.2 ek with
          | none => rfl
          | some s => simp [listAddSet_idem]
        · rw [if_neg (fun hc => hrest hc.2), if_pos ⟨hg, hany⟩, hsnd]
      · have h1 : alistGet? (alistModify st.1 ek (fun agg =>
            { agg with failures := agg.failures ++ [(p, eis)] })) k =
            alistGet? st.1 k := by
          rw [alistGet?_alistModify, if_neg hek]
        have h2 : alistGet? (alistModify st.2 ek
            (fun s => listAddSet s p)) k = alistGet? st.2 k := by
          rw [alistGet?_alistModify, if_neg hek]
        have hbeq : (((ek, eis) : String × List Issue).1 == k) = false := by
          simp [hek]
        have hcond : (((ek, eis) :: rest).any (fun e => e.1 == k)) =
            (rest.any (fun e => e.1 == k)) := by
          simp [hbeq]
        rw [h1, h2, hcond]
    · rw [if_neg hg, ih]
      by_cases hek : ek = k
      · subst hek
        rw [Option.not_isSome_iff_eq_none] at hg
        simp [hg]
      · have hbeq : (((ek, eis) : String × List Issue).1 == k) = false := by
          simp [hek]
        have hcond : (((ek, eis) :: rest).any (fun e => e.1 == k)) =
            (rest.any (fun e => e.1 == k)) := by
          simp [hbeq]
        rw [hcond]

theorem any_eq_not_filter_isEmpty {α : Type} (l : List α) (p : α → Bool) :
    l.any p = !(l.filter p).isEmpty := by
  induction l with
  | nil => rfl
  | cons a rest ih =>
    cases hp : p a <;> simp [List.any_cons, List.filter_cons, hp, ih]

/-- The per-file grouping, filtered down to one rule: one entry holding the
file's issues for that rule when there is at least one, nothing otherwise. -/
theorem fileIssuesByRule_filter (issues : List Issue) (k : String) :
    (fileIssuesByRule issues).filter (fun e => e.1 == k) =
      if (issues.any (fun i => i.rule == k)) = true then
        [(k, issues.filter (fun i => i.rule == k))]
      else [] := by
  have hnd : ((fileIssuesByRule issues).map Prod.fst).Nodup :=
    fibr_keys_nodup issues [] (by simp)
  rw [filter_key_of_nodup _ _ hnd]
  unfold fileIssuesByRule
  rw [fibr_fold_get issues [] k]
  rw [any_eq_not_filter_isEmpty]
  cases hf : (issues.filter (fun i => i.rule == k)).isEmpty <;>
    simp [alistGet?, hf]

theorem groupStep_fold_fst_get (results : List FileResult) (st : GroupState)
    (k : String) :
    alistGet? (results.foldl groupStep st).1 k =
      (alistGet? st.1 k).map (fun agg =>
        { agg with failures := agg.failures ++ directFailures results k }) := by
  induction results generalizing st with
  | nil =>
    cases hm : alistGet? st.1 k with
    | none => simp [hm, directFailures]
    | some agg => simp [hm, directFailures]
  | cons r rest ih =>
    simp only [List.foldl_cons]
    rw [ih]
    unfold groupStep
    by_cases hfail : (r.status == "failed") = true
    · rw [if_pos hfail]
      rw [processFileEntries_fst_get]
      rw [fileIssuesByRule_filter]
      by_cases hany : (r.issues.any (fun i => i.rule == k)) = true
      · rw [if_pos hany]
        have hd : directFailures (r :: rest) k =
            (r.path, r.issues.filter (fun i => i.rule == k)) ::
              directFailures rest k := by
          unfold directFailures
          rw [List.filter_cons]
          simp [hfail, hany]
        rw [hd]
        cases hm : alistGet? st.1 k with
        | none => simp
        | some agg => simp [List.append_assoc]
      · rw [if_neg hany]
        have hd : directFailures (r :: rest) k = directFailures rest k := by
          unfold directFailures
          rw [List.filter_cons]
          simp only [Bool.not_eq_true] at hany
          simp [hany]
        rw [hd]
        cases hm : alistGet? st.1 k with
        | none => simp
        | some agg => simp
    · rw [if_neg hfail]
      have hd : directFailures (r :: rest) k = directFailures rest k := by
        unfold directFailures
        rw [List.filter_cons]
        simp only [Bool.not_eq_true] at hfail
        simp [hfail]
      rw [hd]

theorem groupStep_fold_snd_get (results : List FileResult) (st : GroupState)
    (k : String) (hg : (alistGet? st.1 k).isSome) :
    alistGet? (results.foldl groupStep st).2 k =
      (alistGet? st.2 k).map (ruleFailedPathsFrom results k) := by
  induction results generalizing st with
  | nil =>
    cases hm : alistGet? st.2 k with
    | none => simp [hm, ruleFailedPathsFrom]
    | some s => simp [hm, ruleFailedPathsFrom]
  | cons r rest ih =>
    simp only [List.foldl_cons]
    have hru : ruleFailedPathsFrom (r :: rest) k =
        fun s => ruleFailedPathsFrom rest k
          (if r.status == "failed" && r.issues.any (fun i => i.rule == k) then
            listAddSet s r.path
          else s) := by
      funext s
      rfl
    by_cases hfail : (r.status == "failed") = true
    · have hstep : groupStep st r =
          processFileEntries r.path (fileIssuesByRule r.issues) st := by
        unfold groupStep
        rw [if_pos hfail]
      rw [hstep]
      have hg2 : (alistGet? (processFileEntries r.path
          (fileIssuesByRule r.issues) st).1 k).isSome := by
        rw [processFileEntries_fst_get]
        simpa using hg
      rw [ih _ hg2]
      rw [processFileEntries_snd_get]
      have hanyfi : ((fileIssuesByRule r.issues).any (fun e => e.1 == k)) =
          (r.issues.any (fun i => i.rule == k)) := by
        rw [any_eq_not_filter_isEmpty, fileIssuesByRule_filter]
        by_cases hany : (r.issues.any (fun i => i.rule == k)) = true <;>
          simp [hany]
      rw [hanyfi]
      by_cases hany : (r.issues.any (fun i => i.rule == k)) = true
      · rw [if_pos ⟨hg, hany⟩]
        rw [hru]
        cases hm : alistGet? st.2 k with
        | none => simp
        | some s => simp [hfail, hany]
      · rw [if_neg (fun hc => hany hc.2)]
        rw [hru]
        cases hm : alistGet? st.2 k with
        | none => simp
        | some s =>
          simp only [Bool.not_eq_true] at hany
          simp [hany]
    · have hstep : groupStep st r = st := by
        unfold groupStep
        rw [if_neg hfail]
      rw [hstep, ih _ hg, hru]
      simp only [Bool.not_eq_true] at hfail
      cases hm : alistGet? st.2 k with
      | none => simp
      | some s => simp [hfail]

theorem processFileEntries_keys (p : String)
    (entries : List (String × List Issue)) (st : GroupState) :
    (processFileEntries p entries st).1.map Prod.fst = st.1.map Prod.fst := by
  induction entries generalizing st with
  | nil => rfl
  | cons e rest ih =>
    simp only [processFileEntries, List.foldl_cons] at ih ⊢
    by_cases hg : (alistGet? st.1 e.1).isSome
    · rw [if_pos hg, ih, keys_alistModify]
    · rw [if_neg hg, ih]

theorem groupStep_fold_keys (results : List FileResult) (st : GroupState) :
    (results.foldl groupStep st).1.map Prod.fst = st.1.map Prod.fst := by
  induction results generalizing st with
  | nil => rfl
  | cons r rest ih =>
    simp only [List.foldl_cons]
    rw [ih]
    unfold groupStep
    by_cases hfail : (r.status == "failed") = true
    · rw [if_pos hfail, processFileEntries_keys]
    · rw [if_neg hfail]

theorem initGrouped_get (all_rules : List (String × String × RuleFn))
    (n : Nat) (k : String) :
    (alistGet? (initGrouped n all_rules) k = none ∧
      k ∉ all_rules.map (fun rd => rd.1)) ∨
    (k ∈ all_rules.map (fun rd => rd.1) ∧
      ∃ d, alistGet? (initGrouped n all_rules) k = some ⟨d, n, 0, 0, []⟩) := by
  unfold initGrouped
  suffices h : ∀ (m : List (String × RuleAggregate)),
      (alistGet? (all_rules.foldl
          (fun g r => alistSet g r.1 ⟨r.2.1, n, 0, 0, []⟩) m) k =
        alistGet? m k ∧ k ∉ all_rules.map (fun rd => rd.1)) ∨
      (k ∈ all_rules.map (fun rd => rd.1) ∧
        ∃ d, alistGet? (all_rules.foldl
          (fun g r => alistSet g r.1 ⟨r.2.1, n, 0, 0, []⟩) m) k =
            some ⟨d, n, 0, 0, []⟩) by
    rcases h [] with ⟨h1, h2⟩ | h1
    · exact Or.inl ⟨by rw [h1]; rfl, h2⟩
    · exact Or.inr h1
  induction all_rules with
  | nil => intro m; exact Or.inl ⟨rfl, by simp⟩
  | cons r rest ih =>
    intro m
    simp only [List.foldl_cons]
    rcases ih (alistSet m r.1 ⟨r.2.1, n, 0, 0, []⟩) with ⟨h1, h2⟩ | ⟨h1, h2⟩
    · rw [h1, alistGet?_alistSet]
      by_cases hrk : r.1 = k
      · exact Or.inr ⟨by simp [hrk], ⟨r.2.1, by rw [if_pos hrk]⟩⟩
      · refine Or.inl ⟨by rw [if_neg hrk], ?_⟩
        simp only [List.map_cons, List.mem_cons, not_or]
        exact ⟨fun h => hrk h.symm, h2⟩
    · exact Or.inr ⟨by simp [h1], h2⟩

theorem initFilesByRule_get (all_rules : List (String × String × RuleFn))
    (k : String) :
    alistGet? (initFilesByRule all_rules) k =
      if k ∈ all_rules.map (fun rd => rd.1) then some [] else none := by
  unfold initFilesByRule
  suffices h : ∀ (m : List (String × List String)),
      alistGet? (all_rules.foldl (fun g r => alistSet g r.1 []) m) k =
        if k ∈ all_rules.map (fun rd => rd.1) then some [] else alistGet? m k by
    rw [h []]
    by_cases hk : k ∈ all_rules.map (fun rd => rd.1) <;> simp [hk, alistGet?]
  induction all_rules with
  | nil => intro m; simp
  | cons r rest ih =>
    intro m
    simp only [List.foldl_cons]
    rw [ih (alistSet m r.1 [])]
    by_cases hk : k ∈ rest.map (fun rd => rd.1)
    · simp [hk]
    · rw [if_neg hk, alistGet?_alistSet]
      by_cases hrk : r.1 = k
      · simp [hrk]
      · have : k ∉ (r :: rest).map (fun rd => rd.1) := by
          simp only [List.map_cons, List.mem_cons, not_or]
          exact ⟨fun h => hrk h.symm, hk⟩
        rw [if_neg this, if_neg hrk]

theorem initGrouped_keys_nodup (all_rules : List (String × String × RuleFn))
    (n : Nat) :
    ((initGrouped n all_rules).map Prod.fst).Nodup := by
  unfold initGrouped
  suffices h : ∀ (m : List (String × RuleAggregate)),
      (m.map Prod.fst).Nodup →
      ((all_rules.foldl
        (fun g r => alistSet g r.1 ⟨r.2.1, n, 0, 0, []⟩) m).map
          Prod.fst).Nodup from h [] (by simp)
  induction all_rules with
  | nil => intro m hm; exact hm
  | cons r rest ih =>
    intro m hm
    simp only [List.foldl_cons]
    exact ih _ (keys_alistSet_nodup _ _ _ hm)

theorem ruleFailedPathsFrom_nodup (results : List FileResult) (k : String)
    (s : List String) (h : s.Nodup) :
    (ruleFailedPathsFrom results k s).Nodup := by
  induction results generalizing s with
  | nil => exact h
  | cons r rest ih =>
    unfold ruleFailedPathsFrom
    simp only [List.foldl_cons]
    by_cases hc : (r.status == "failed" &&
        r.issues.any (fun i => i.rule == k)) = true
    · rw [if_pos hc]
      exact ih _ (listAddSet_nodup _ _ h)
    · rw [if_neg hc]
      exact ih _ h

theorem mem_ruleFailedPathsFrom (results : List FileResult) (k : String)
    (s : List String) (p : String) :
    p ∈ ruleFailedPathsFrom results k s ↔
      p ∈ s ∨ ∃ r, r ∈ results ∧ r.status = "failed" ∧ r.path = p ∧
        ∃ i, i ∈ r.issues ∧ i.rule = k := by
  induction results generalizing s with
  | nil => simp [ruleFailedPathsFrom]
  | cons r rest ih =>
    unfold ruleFailedPathsFrom
    simp only [List.foldl_cons]
    by_cases hc : (r.status == "failed" &&
        r.issues.any (fun i => i.rule == k)) = true
    · rw [if_pos hc]
      rw [show List.foldl _ (listAddSet s r.path) rest =
        ruleFailedPathsFrom rest k (listAddSet s r.path) from rfl]
      rw [ih]
      rw [mem_listAddSet]
      simp only [Bool.and_eq_true, beq_iff_eq, List.any_eq_true] at hc
      constructor
      · rintro ((hp | rfl) | ⟨r2, hr2, hst, hpath, hi⟩)
        · exact Or.inl hp
        · exact Or.inr ⟨r, List.mem_cons_self r rest, hc.1, rfl,
            by
              rcases hc.2 with ⟨i, hi, hik⟩
              exact ⟨i, hi, by simpa using hik⟩⟩
        · exact Or.inr ⟨r2, List.mem_cons_of_mem _ hr2, hst, hpath, hi⟩
      · rintro (hp | ⟨r2, hr2, hst, hpath, hi⟩)
        · exact Or.inl (Or.inl hp)
        · rcases List.mem_cons.mp hr2 with rfl | hr2
          · exact Or.inl (Or.inr hpath.symm)
          · exact Or.inr ⟨r2, hr2, hst, hpath, hi⟩
    · rw [if_neg hc]
      rw [show List.foldl _ s rest = ruleFailedPathsFrom rest k s from rfl]
      rw [ih]
      simp only [Bool.and_eq_true, beq_iff_eq, List.any_eq_true,
        not_and, Bool.not_eq_true] at hc
      constructor
      · rintro (hp | h)
        · exact Or.inl hp
        · rcases h with ⟨r2, hr2, hst, hpath, hi⟩
          exact Or.inr ⟨r2, List.mem_cons_of_mem _ hr2, hst, hpath, hi⟩
      · rintro (hp | ⟨r2, hr2, hst, hpath, hi⟩)
        · exact Or.inl hp
        · rcases List.mem_cons.mp hr2 with rfl | hr2
          · exact absurd hi (hc hst)
          · exact Or.inr ⟨r2, hr2, hst, hpath, hi⟩

theorem ruleFailedPathsFrom_length_le (results : List FileResult)
    (k : String) (s : List String) :
    (ruleFailedPathsFrom results k s).length ≤ s.length + results.length := by
  induction results generalizing s with
  | nil => simp [ruleFailedPathsFrom]
  | cons r rest ih =>
    unfold ruleFailedPathsFrom
    simp only [List.foldl_cons]
    by_cases hc : (r.status == "failed" &&
        r.issues.any (fun i => i.rule == k)) = true
    · rw [if_pos hc]
      calc (ruleFailedPathsFrom rest k (listAddSet s r.path)).length
          ≤ (listAddSet s r.path).length + rest.length := ih _
        _ ≤ (s.length + 1) + rest.length := by
            have := listAddSet_length_le s r.path
            omega
        _ = s.length + (r :: rest).length := by simp; omega
    · rw [if_neg hc]
      calc (ruleFailedPathsFrom rest k s).length
          ≤ s.length + rest.length := ih _
        _ ≤ s.length + (r :: rest).length := by simp

/-- What one entry of `group_issues_by_rule` holds, rule by rule: its key is
a registered rule id, `total_files` is the number of results, `failures`
are exactly the failed results carrying at least one issue for the rule (in
input order, with exactly that rule's issues), `failed_files` is the size
of the deduplicated set of their paths, and `passed_files` its complement. -/
theorem grouped_entry_spec (results : List FileResult)
    (all_rules : List (String × String × RuleFn)) (rid : String)
    (agg : RuleAggregate)
    (h : (rid, agg) ∈ group_issues_by_rule results all_rules) :
    rid ∈ all_rules.map (fun rd => rd.1) ∧
    agg.total_files = results.length ∧
    agg.failures = directFailures results rid ∧
    agg.failed_files = (ruleFailedPaths results rid).length ∧
    agg.passed_files =
      results.length - (ruleFailedPaths results rid).length := by
  have hmem : (rid, agg) ∈ (results.foldl groupStep
      (initGrouped results.length all_rules,
       initFilesByRule all_rules)).1.map (fun e =>
        (e.1, { e.2 with
          failed_files := ((alistGet? (results.foldl groupStep
            (initGrouped results.length all_rules,
             initFilesByRule all_rules)).2 e.1).getD []).length,
          passed_files := e.2.total_files -
            ((alistGet? (results.foldl groupStep
              (initGrouped results.length all_rules,
               initFilesByRule all_rules)).2 e.1).getD []).length })) := by
    simpa [group_issues_by_rule] using h
  rcases List.mem_map.mp hmem with ⟨e, he, heq⟩
  dsimp only at heq
  injection heq with h1 h2
  have hkeys : ((results.foldl groupStep
      (initGrouped results.length all_rules,
       initFilesByRule all_rules)).1.map Prod.fst).Nodup := by
    rw [groupStep_fold_keys]
    exact initGrouped_keys_nodup all_rules results.length
  have hpair : (rid, e.2) = e := by
    rw [← h1]
  have hget : alistGet? (results.foldl groupStep
      (initGrouped results.length all_rules,
       initFilesByRule all_rules)).1 rid = some e.2 :=
    alistGet?_eq_some_of_mem _ _ _ hkeys (hpair ▸ he)
  rw [groupStep_fold_fst_get] at hget
  rcases initGrouped_get all_rules results.length rid with ⟨hnone, _⟩ |
    ⟨hin, d, hsome⟩
  · rw [hnone] at hget
    cases hget
  · rw [hsome, Option.map_some', Option.some.injEq] at hget
    have he2 : e.2 = (⟨d, results.length, 0, 0,
        [] ++ directFailures results rid⟩ : RuleAggregate) := hget.symm
    have hsnd : alistGet? (results.foldl groupStep
        (initGrouped results.length all_rules,
         initFilesByRule all_rules)).2 rid =
        some (ruleFailedPaths results rid) := by
      rw [groupStep_fold_snd_get _ _ _ (by rw [hsome]; rfl)]
      rw [initFilesByRule_get, if_pos hin]
      rfl
    refine ⟨hin, ?_, ?_, ?_, ?_⟩
    · rw [← h2, he2]
    · rw [← h2, he2]
      simp
    · rw [← h2, h1, hsnd]
      rfl
    · rw [← h2, h1, hsnd, he2]
      rfl

theorem grouped_entry_exists (results : List FileResult)
    (all_rules : List (String × String × RuleFn)) (rd : String × String × RuleFn)
    (h : rd ∈ all_rules) :
    ∃ agg, (rd.1, agg) ∈ group_issues_by_rule results all_rules := by
  have hin : rd.1 ∈ all_rules.map (fun rd => rd.1) :=
    List.mem_map.mpr ⟨rd, h, rfl⟩
  rcases initGrouped_get all_rules results.length rd.1 with ⟨_, hnot⟩ |
    ⟨_, d, hsome⟩
  · exact absurd hin hnot
  · have hget : alistGet? (results.foldl groupStep
        (initGrouped results.length all_rules,
         initFilesByRule all_rules)).1 rd.1 =
        some (⟨d, results.length, 0, 0,
          [] ++ directFailures results rd.1⟩ : RuleAggregate) := by
      rw [groupStep_fold_fst_get, hsome]
      rfl
    have hmem := mem_of_alistGet?_eq_some _ _ _ hget
    refine ⟨⟨d, results.length,
      results.length - ((alistGet? (results.foldl groupStep
        (initGrouped results.length all_rules,
         initFilesByRule all_rules)).2 rd.1).getD []).length,
      ((alistGet? (results.foldl groupStep
        (initGrouped results.length all_rules,
         initFilesByRule all_rules)).2 rd.1).getD []).length,
      [] ++ directFailures results rd.1⟩, ?_⟩
    show (rd.1, _) ∈ group_issues_by_rule results all_rules
    simp only [group_issues_by_rule]
    exact List.mem_map.mpr ⟨(rd.1, ⟨d, results.length, 0, 0,
      [] ++ directFailures results rd.1⟩), hmem, rfl⟩

/-- C1: every registered rule owns an aggregate entry (with
`failed_files = 0` when no result carries an issue for it), and for every
entry `passed_files + failed_files = total_files` with
`total_files = |results|` and `failed_files` the number of distinct paths
of failed results having at least one issue for that rule. -/
theorem c1_rule_aggregate_invariant (results : List FileResult)
    (all_rules : List (String × String × RuleFn)) :
    (∀ rd ∈ all_rules, ∃ agg,
      (rd.1, agg) ∈ group_issues_by_rule results all_rules) ∧
    (∀ rid agg, (rid, agg) ∈ group_issues_by_rule results all_rules →
      agg.total_files = results.length ∧
      agg.failed_files = (ruleFailedPaths results rid).length ∧
      (ruleFailedPaths results rid).Nodup ∧
      (∀ p, p ∈ ruleFailedPaths results rid ↔ ∃ r, r ∈ results ∧
        r.status = "failed" ∧ r.path = p ∧
        ∃ i, i ∈ r.issues ∧ i.rule = rid) ∧
      agg.failed_files ≤ agg.total_files ∧
      agg.passed_files + agg.failed_files = agg.total_files ∧
      ((∀ r ∈ results, ∀ i ∈ r.issues, i.rule ≠ rid) →
        agg.failed_files = 0)) := by
  constructor
  · intro rd hrd
    exact grouped_entry_exists results all_rules rd hrd
  · intro rid agg hmem
    obtain ⟨hin, htot, hfail, hfcount, hpcount⟩ :=
      grouped_entry_spec results all_rules rid agg hmem
    have hle : (ruleFailedPaths results rid).length ≤ results.length := by
      have := ruleFailedPathsFrom_length_le results rid []
      simpa [ruleFailedPaths] using this
    have hmemiff : ∀ p, p ∈ ruleFailedPaths results rid ↔ ∃ r, r ∈ results ∧
        r.status = "failed" ∧ r.path = p ∧
        ∃ i, i ∈ r.issues ∧ i.rule = rid := by
      intro p
      have := mem_ruleFailedPathsFrom results rid [] p
      simpa [ruleFailedPaths] using this
    refine ⟨htot, hfcount, ?_, hmemiff, ?_, ?_, ?_⟩
    · exact ruleFailedPathsFrom_nodup results rid [] (by simp)
    · rw [hfcount, htot]
      exact hle
    · rw [hfcount, hpcount, htot]
      omega
    · intro hnone
      have hnil : ruleFailedPaths results rid = [] := by
        rw [List.eq_nil_iff_forall_not_mem]
        intro p hp
        rw [hmemiff p] at hp
        rcases hp with ⟨r, hr, _, _, i, hi, hik⟩
        exact hnone r hr i hi hik
      rw [hfcount, hnil]
      rfl

/-- C1 witness: one failed result with a single `basic-structure` issue:
the `basic-structure` aggregate has `passed_files + failed_files =
total_files = 1`. -/
theorem c1_rule_aggregate_invariant_witness :
    (⟨"Check DOCTYPE and html tag", 1, 0, 1,
      [("a.html", [mkIssue "basic-structure" "error" "m" none])]⟩ :
        RuleAggregate).passed_files +
      (⟨"Check DOCTYPE and html tag", 1, 0, 1,
        [("a.html", [mkIssue "basic-structure" "error" "m" none])]⟩ :
          RuleAggregate).failed_files =
      (⟨"Check DOCTYPE and html tag", 1, 0, 1,
        [("a.html", [mkIssue "basic-structure" "error" "m" none])]⟩ :
          RuleAggregate).total_files :=
  ((c1_rule_aggregate_invariant
    [⟨"a.html", "failed", [mkIssue "basic-structure" "error" "m" none], none⟩]
    get_all_rules).2 "basic-structure"
    ⟨"Check DOCTYPE and html tag", 1, 0, 1,
      [("a.html", [mkIssue "basic-structure" "error" "m" none])]⟩
    (by decide)).2.2.2.2.2.1

/-- C10: an issue whose rule id is not registered is invisible in the
rule-major aggregate: every aggregate entry has a registered key, its
failure lists carry only issues of that key, and its `failed_files` counts
only issues of its own rule; while any non-empty issue list still marks the
file failed in `validate_file` and the summary's error total counts issues
with no rule filter at all. -/
theorem c10_unregistered_rule_invisible (results : List FileResult)
    (all_rules : List (String × String × RuleFn)) (rid : String)
    (h : rid ∉ all_rules.map (fun rd => rd.1)) :
    (∀ e ∈ group_issues_by_rule results all_rules,
      e.1 ≠ rid ∧
      (∀ f ∈ e.2.failures, ∀ i ∈ f.2, i.rule = e.1 ∧ i.rule ≠ rid) ∧
      e.2.failed_files = (ruleFailedPaths results e.1).length) ∧
    (∀ (rules : List (String × String × RuleFn)) (path : String)
        (raw : List String) (soup : HtmlDoc) (issues : List Issue),
      runRules rules soup path raw [] = (issues, none) →
      issues ≠ [] →
      (validate_file rules path (.ok raw soup)).status = "failed") ∧
    ((format_json_output results).total_errors =
      ((results.filter
        (fun r => r.status == "failed" || r.status == "error")).map
          (fun r => (r.issues.filter
            (fun i => i.severity == "error")).length)).sum) := by
  refine ⟨?_, ?_, ?_⟩
  · intro e hmem
    have hpair : (e.1, e.2) ∈ group_issues_by_rule results all_rules := hmem
    obtain ⟨hin, _, hfail, hfcount, _⟩ :=
      grouped_entry_spec results all_rules e.1 e.2 hpair
    have hne : e.1 ≠ rid := fun hx => h (hx ▸ hin)
    refine ⟨hne, ?_, hfcount⟩
    intro f hf i hi
    rw [hfail] at hf
    unfold directFailures at hf
    rcases List.mem_map.mp hf with ⟨r, _, rfl⟩
    have := (List.mem_filter.mp hi).2
    have hik : i.rule = e.1 := by simpa using this
    exact ⟨hik, fun hx => hne (hik.symm.trans hx)⟩
  · intro rules path raw soup issues hrun hne
    unfold validate_file
    dsimp only
    rw [hrun]
    have : issues.isEmpty = false := by
      cases issues with
      | nil => exact absurd rfl hne
      | cons a l => rfl
    simp [this]
  · show (results.foldl jsonStep ([], 0, 0)).2.1 = _
    rw [json_foldl_spec]
    simp

/-- C10 witness: with one failed result whose only issue names the
unregistered rule `unknown-rule`, the `basic-structure` aggregate keeps
`failed_files = 0` and its failure list is empty, while the file itself is
marked failed. -/
theorem c10_unregistered_rule_invisible_witness :
    (∀ e ∈ group_issues_by_rule
        [⟨"a.html", "failed",
          [mkIssue "unknown-rule" "error" "m" none], none⟩]
        get_all_rules,
      e.1 ≠ "unknown-rule" ∧
      (∀ f ∈ e.2.failures, ∀ i ∈ f.2, i.rule = e.1 ∧
        i.rule ≠ "unknown-rule")) ∧
    (validate_file
      [("r", "d", fun _ _ _ =>
        .ok [mkIssue "unknown-rule" "error" "m" none])]
      "a.html" (.ok [] ⟨[], none, none, [], none⟩)).status = "failed" := by
  have h := c10_unregistered_rule_invisible
    [⟨"a.html", "failed", [mkIssue "unknown-rule" "error" "m" none], none⟩]
    get_all_rules "unknown-rule" (by decide)
  constructor
  · intro e he
    exact ⟨(h.1 e he).1, (h.1 e he).2.1⟩
  · exact h.2.1
      [("r", "d", fun _ _ _ => .ok [mkIssue "unknown-rule" "error" "m" none])]
      "a.html" [] ⟨[], none, none, [], none⟩
      [mkIssue "unknown-rule" "error" "m" none] rfl (by decide)

theorem escapeList_no_angle (l : List Char) :
    ∀ c ∈ escapeList l, c ≠ '<' ∧ c ≠ '>' := by
  induction l with
  | nil => intro c hc; cases hc
  | cons a rest ih =>
    intro c hc
    rcases List.mem_append.mp hc with hhead | htail
    · unfold escapeChar at hhead
      by_cases h1 : (a == '&') = true
      · rw [if_pos h1] at hhead
        exact (by decide :
            ∀ x ∈ ("&amp;" : String).data, x ≠ '<' ∧ x ≠ '>') c hhead
      · rw [if_neg h1] at hhead
        by_cases h2 : (a == '<') = true
        · rw [if_pos h2] at hhead
          exact (by decide :
              ∀ x ∈ ("&lt;" : String).data, x ≠ '<' ∧ x ≠ '>') c hhead
        · rw [if_neg h2] at hhead
          by_cases h3 : (a == '>') = true
          · rw [if_pos h3] at hhead
            exact (by decide :
                ∀ x ∈ ("&gt;" : String).data, x ≠ '<' ∧ x ≠ '>') c hhead
          · rw [if_neg h3] at hhead
            by_cases h4 : (a == '"') = true
            · rw [if_pos h4] at hhead
              exact (by decide :
                  ∀ x ∈ ("&quot;" : String).data, x ≠ '<' ∧ x ≠ '>') c hhead
            · rw [if_neg h4] at hhead
              by_cases h5 : (a == Char.ofNat 39) = true
              · rw [if_pos h5] at hhead
                exact (by decide :
                    ∀ x ∈ ("&#x27;" : String).data, x ≠ '<' ∧ x ≠ '>') c hhead
              · rw [if_neg h5] at hhead
                have hca : c = a := by
                  simpa [String.singleton] using hhead
                subst hca
                constructor
                · intro hlt
                  rw [hlt] at h2
                  exact h2 rfl
                · intro hgt
                  rw [hgt] at h3
                  exact h3 rfl
    · exact ih c htail

set_option maxRecDepth 4000 in
/-- C9: user-supplied text passes through `html.escape` before embedding:
the escaped form of any string contains no raw angle bracket, so no
user-controlled `<script>` can appear as markup; concretely, a snippet line
and an issue message containing `<script>` render with `&lt;script&gt;` and
the raw `<script>` never occurs in the produced fragment. -/
theorem c9_html_escaping :
    (∀ (s : String), ∀ c ∈ (htmlEscape s).data, c ≠ '<' ∧ c ≠ '>') ∧
    (containsSub "<script>"
        (format_code_snippet_html
          [(3, "x <script>alert(1)</script> y")] 3 "error") = false ∧
      containsSub "&lt;script&gt;"
        (format_code_snippet_html
          [(3, "x <script>alert(1)</script> y")] 3 "error") = true) ∧
    (containsSub "<script>"
        (generate_html_rules (fun _ => none)
          [("basic-structure",
            ⟨"Check DOCTYPE and html tag", 1, 0, 1,
              [("a.html",
                [mkIssue "basic-structure" "error"
                  "bad <script>alert(1)</script> message" none])]⟩)]) =
        false ∧
      containsSub "&lt;script&gt;"
        (generate_html_rules (fun _ => none)
          [("basic-structure",
            ⟨"Check DOCTYPE and html tag", 1, 0, 1,
              [("a.html",
                [mkIssue "basic-structure" "error"
                  "bad <script>alert(1)</script> message" none])]⟩)]) =
        true) := by
  refine ⟨?_, by constructor <;> decide, by constructor <;> decide⟩
  intro s c hc
  exact escapeList_no_angle s.data c hc

/-- C9 witness: the escaped form of a one-character string `<` is `&lt;`,
whose first character is not an angle bracket. -/
theorem c9_html_escaping_witness : ('&' : Char) ≠ '<' ∧ ('&' : Char) ≠ '>' :=
  c9_html_escaping.1 "<" '&' (by decide)
